import Mathlib

/-!
Shallow embedding of the resync (reconciliation) core of the
search-aggregator repository, together with theorems checking the
natural-language specification against it.

The embedding follows `pkg/handlers` source (the file holding
`resyncCluster` and `valueToString`) line by line:

* Store property values (`interface\x7b\x7d` in Go) are modelled by `GoVal`:
  a scalar (nil, int64, int, string, or an opaque value of an unrecognized
  type) or a `[]interface\x7b\x7d` sequence of scalars.
* Go maps keyed by strings are modelled as association lists built and
  consumed exactly as the source builds and consumes them (insert only
  when absent, delete, lookup).  Go map iteration order is not
  observable in any property proved here (only memberships and counts).
* The store and the chunked-mutation executor are external collaborators;
  they enter as a `StoreEnv` of query results and per-call responses.
  `db.Store.Query` returns an unusable (nil) result together with a non-nil
  error on failure; the source itself documents that iterating such a
  result panics ("to avoid panic if there is an error executing query" on
  the edge-query guard).  A panic of `resyncCluster` is modelled as the
  `none` result.
* Wall-clock metrics (`SyncMetrics`) and the verbosity-gated
  `computeIntraEdges` logging helper perform no state change relevant to
  the claims and are not modelled.
* `strconv.FormatInt(v, 10)` / `strconv.Itoa` are modelled by an explicit
  base-10 digit loop (`natDecChars`), as in the Go standard library.
-/

namespace SearchAggregator

/-- Scalar store values: nil, the two integer widths distinguished by
`valueToString`, strings, and an opaque stand-in for any unrecognized
type (tagged so that distinct unknown values stay distinct). -/
inductive GoScalar where
  | snil : GoScalar
  | sint64 : Int → GoScalar
  | sint : Int → GoScalar
  | sstr : String → GoScalar
  | sother : String → GoScalar
deriving DecidableEq

/-- A property value as read from the store or produced by encoding: a
scalar or a `[]interface\x7b\x7d` sequence. -/
inductive GoVal where
  | scalar : GoScalar → GoVal
  | vseq : List GoScalar → GoVal
deriving DecidableEq

/-- Decimal digit character (48 is the code of the zero digit). -/
def digitChar (d : Nat) : Char := Char.ofNat (48 + d)

/-- Base-10 digit loop of `strconv`: with enough fuel, produce the decimal
digits of `n`, most significant first. -/
def natDecCharsAux : Nat → Nat → List Char
  | 0, _ => []
  | fuel + 1, n =>
    if n < 10 then [digitChar n]
    else natDecCharsAux fuel (n / 10) ++ [digitChar (n % 10)]

/-- Decimal digits of a natural number (fuel `n + 1` always suffices). -/
def natDecChars (n : Nat) : List Char := natDecCharsAux (n + 1) n

/-- Model of `strconv.FormatInt(i, 10)` / `strconv.Itoa`: optional minus
sign (code 45) followed by the decimal digits of the absolute value. -/
def formatInt (i : Int) : String :=
  if i < 0 then String.mk (Char.ofNat 45 :: natDecChars i.natAbs)
  else String.mk (natDecChars i.natAbs)

/-- Embedding of `valueToString` for scalars: the `switch` renders `int64`
and `int` in decimal, passes a `string` through (the `default` branch
re-checks for `string`), and leaves the zero value `""` for anything
else, logging a warning instead of failing. -/
def scalarToString : GoScalar → String
  | GoScalar.sint64 n => formatInt n
  | GoScalar.sint n => formatInt n
  | GoScalar.sstr s => s
  | GoScalar.snil => ""
  | GoScalar.sother _ => ""

/-- Embedding of `valueToString`: a sequence is not an integer or a
string, so it also falls to the `default` branch and yields `""`. -/
def valueToString : GoVal → String
  | GoVal.scalar v => scalarToString v
  | GoVal.vseq _ => ""

/-- Lookup in a Go map modelled as an association list (first match). -/
def alookup {α : Type} : List (String × α) → String → Option α
  | [], _ => none
  | p :: rest, key => if p.1 = key then some p.2 else alookup rest key

/-- Deletion from a Go map modelled on association lists.  Keys are unique
in every map the source builds, so removing every pair with the key is
the same as Go's `delete`. -/
def aerase {α : Type} : List (String × α) → String → List (String × α)
  | [], _ => []
  | p :: rest, key => if p.1 = key then aerase rest key else p :: aerase rest key

/-- Overwrite the value stored at a key that is already present. -/
def aupdate {α : Type} (m : List (String × α)) (key : String) (v : α) : List (String × α) :=
  m.map (fun p => if p.1 = key then (key, v) else p)

/-- The keys of a modelled map are pairwise distinct (always true of a
Go map; maintained by every map the source builds). -/
def keysNodup {α : Type} (m : List (String × α)) : Prop :=
  (m.map Prod.fst).Nodup

instance keysNodupDecidable {α : Type} (m : List (String × α)) : Decidable (keysNodup m) :=
  inferInstanceAs (Decidable ((m.map Prod.fst).Nodup))

/-- A node record returned by the store for the cluster query
(`rg2.Node`): only its property map is consumed by the core. -/
structure RGNode where
  properties : List (String × GoVal)
deriving DecidableEq

/-- The `_uid` extraction of the source: `rgNode.Properties["_uid"].(string)`
with its `ok` guard; `none` when the property is missing or not a string. -/
def RGNode.uidStr (n : RGNode) : Option String :=
  match alookup n.properties "_uid" with
  | some (GoVal.scalar (GoScalar.sstr u)) => some u
  | _ => none

/-- Forced Go type assertion `.(string)` on a store value.  In the source
it is only applied to `_uid` properties of map entries that were inserted
with a string `_uid`, so the non-string branch (a Go panic) is never
reached; it is given the zero value here. -/
def goStringAssert : GoVal → String
  | GoVal.scalar (GoScalar.sstr s) => s
  | _ => ""

/-- An incoming resource (`db.Resource`): its UID, its typed property
map, and the outcome of `EncodeProperties()` (an external encoding step,
carried as data; `none` models an encoding error). -/
structure Resource where
  uid : String
  properties : List (String × GoVal)
  encodedProperties : Option (List (String × GoVal))
deriving DecidableEq

/-- An edge (`db.Edge`) as consumed by the resync core: source UID, type
and destination UID (the identity key; edges carry no other data here). -/
structure Edge where
  sourceUID : String
  edgeType : String
  destUID : String
deriving DecidableEq

/-- Embedding of `getEdgeUID`: `fmt.Sprintf("%s-%s->%s", ...)`. -/
def getEdgeUID (sourceUID : String) (edgeType : String) (destUID : String) : String :=
  sourceUID ++ "-" ++ edgeType ++ "->" ++ destUID

/-- Identity key of an edge value. -/
def edgeKey (e : Edge) : String := getEdgeUID e.sourceUID e.edgeType e.destUID

/-- The single-quote character interpolated around query arguments. -/
def quoteChar : Char := Char.ofNat 39

/-- The backslash escape character. -/
def backslashChar : Char := Char.ofNat 92

/-- Modelled from the spec: the argument-escaping step of
`db.SanitizeQuery`, which is not under `src/`.  Per the spec the core
must sanitize any cluster name interpolated into a query string to
prevent query injection, so each quote character in an argument is
escaped before interpolation. -/
def sanitizeArg (s : String) : String :=
  String.mk ((s.data.map (fun c =>
    if c = quoteChar then [backslashChar, quoteChar] else [c])).flatten)

/-- Query of line 33, built through `db.SanitizeQuery`:
`"MATCH (n \x7bcluster: '%s'\x7d) RETURN n"` applied to the cluster name. -/
def resourceQueryStr (clusterName : String) : String :=
  "MATCH (n \x7bcluster: \x27" ++ sanitizeArg clusterName ++ "\x27\x7d) RETURN n"

/-- Query of line 66, built through `db.SanitizeQuery`:
`"MATCH (n \x7b_uid:'%s'\x7d) DELETE n"` applied to a duplicated UID; it
matches every record carrying that UID. -/
def dupUidDeleteQueryStr (uid : String) : String :=
  "MATCH (n \x7b_uid:\x27" ++ sanitizeArg uid ++ "\x27\x7d) DELETE n"

/-- Query of line 162, built with plain `fmt.Sprintf` (no sanitizer): the
existing intra-cluster edges query, with the cluster name interpolated
raw at both `%s` sites. -/
def edgeQueryStr (clusterName : String) : String :=
  "MATCH (s \x7bcluster:\x27" ++ clusterName ++ "\x27\x7d)-[r]->(d \x7bcluster:\x27" ++
    clusterName ++
    "\x27\x7d) WHERE (r._interCluster <> true) OR (r._interCluster IS NULL) RETURN s._uid, type(r), d._uid"

/-- Query of line 194, built with plain `fmt.Sprintf` (no sanitizer): the
duplicate-edge deletion query, with the cluster name interpolated raw at
both `%s` sites. -/
def dupEdgeDeleteQueryStr (clusterName : String) : String :=
  "MATCH (s \x7bcluster:\x27" ++ clusterName ++ "\x27\x7d)-[r]->(d \x7bcluster:\x27" ++
    clusterName ++
    "\x27\x7d) WHERE (r._interCluster <> true) OR (r._interCluster IS NULL) WITH s as source, d as dest, TYPE(r) as edge, COLLECT (r) AS edges WHERE size(edges) >1 UNWIND edges[1..] AS dupedges DELETE dupedges"

/-- What the existing-edges query would be if it were built through the
sanitizer, as the spec asserts of every cluster-name interpolation. -/
def edgeQueryStrSanitized (clusterName : String) : String :=
  edgeQueryStr (sanitizeArg clusterName)

/-- What the duplicate-edge deletion query would be if it were built
through the sanitizer. -/
def dupEdgeDeleteQueryStrSanitized (clusterName : String) : String :=
  dupEdgeDeleteQueryStr (sanitizeArg clusterName)

/-- Store operations issued by one resync cycle, in order. -/
inductive StoreOp where
  | query : String → StoreOp
  | chunkedInsert : List Resource → String → StoreOp
  | chunkedUpdate : List Resource → StoreOp
  | chunkedDelete : List String → StoreOp
  | chunkedInsertEdge : List Edge → String → StoreOp
  | chunkedDeleteEdge : List Edge → String → StoreOp
deriving DecidableEq

/-- Lines 41-59: scan the resource query result, keeping the first record
per UID in `existingResources` and counting every further record with an
already-seen UID in `duplicatedResources`.  A record whose column 0 is
not a node, or whose `_uid` is not a string, is skipped (`none` input). -/
def buildExistingAux :
    List (Option RGNode) → List (String × RGNode) → List (String × Nat) →
      List (String × RGNode) × List (String × Nat)
  | [], existing, dups => (existing, dups)
  | rec? :: rest, existing, dups =>
    match rec? with
    | none => buildExistingAux rest existing dups
    | some rgNode =>
      match rgNode.uidStr with
      | none => buildExistingAux rest existing dups
      | some uid =>
        match alookup existing uid with
        | some _ =>
          match alookup dups uid with
          | none => buildExistingAux rest existing (dups ++ [(uid, 1)])
          | some dupeCount => buildExistingAux rest existing (aupdate dups uid (dupeCount + 1))
        | none => buildExistingAux rest (existing ++ [(uid, rgNode)]) dups

/-- The existing-resources map and the duplicate counters built from the
cluster query result. -/
def buildExisting (records : List (Option RGNode)) :
    List (String × RGNode) × List (String × Nat) :=
  buildExistingAux records [] []

/-- Lines 62-73, iterating the duplicated UIDs: issue the per-UID
deletion query, remember (only for the log) whether it failed, and
delete the UID from the in-memory map regardless. -/
def dedupeResourcesAux (delFails : String → Bool) :
    List (String × Nat) → List (String × RGNode) →
      List (String × RGNode) × List StoreOp × List String
  | [], existing => (existing, [], [])
  | p :: rest, existing =>
    let outcome := dedupeResourcesAux delFails rest (aerase existing p.1)
    (outcome.1, StoreOp.query (dupUidDeleteQueryStr p.1) :: outcome.2.1,
      if delFails p.1 then p.1 :: outcome.2.2 else outcome.2.2)

/-- Lines 61-73: duplicate remediation runs only when at least one UID
was duplicated; a deletion failure is logged (recorded in the third
component) and never stops the loop or the cycle. -/
def dedupeResources (existing : List (String × RGNode)) (dups : List (String × Nat))
    (delFails : String → Bool) :
    List (String × RGNode) × List StoreOp × List String :=
  if dups.length > 0 then dedupeResourcesAux delFails dups existing
  else (existing, [], [])

/-- Go map access `existingResource.Properties[key]`: a missing key reads
as the zero value (nil interface). -/
def lookupVal (m : List (String × GoVal)) (key : String) : GoVal :=
  match alookup m key with
  | some v => v
  | none => GoVal.scalar GoScalar.snil

/-- Type test `value.([]interface\x7b\x7d)`. -/
def isSeqVal : GoVal → Bool
  | GoVal.vseq _ => true
  | _ => false

/-- Model of `reflect.DeepEqual` on store values: structural equality. -/
def goDeepEqual (a : GoVal) (b : GoVal) : Bool := decide (a = b)

/-- Lines 92-109, the body of the per-property loop: when both the
encoded value and the stored value are sequences they are compared with
`reflect.DeepEqual` against the resource's raw property; otherwise both
sides are normalized with `valueToString` and compared as strings (the
two string locals keep their zero value `""` in the sequence case, so
the second disjunct is then vacuous). -/
def propDiffers (newResource : Resource) (existingResource : RGNode)
    (key : String) (value : GoVal) : Bool :=
  let interfaceTypeTrue := isSeqVal value
  let existingVal := lookupVal existingResource.properties key
  let existingInterfaceTypeTrue := isSeqVal existingVal
  let isInterface := interfaceTypeTrue && existingInterfaceTypeTrue
  let stringValue := if isInterface then "" else valueToString value
  let existingProperty := if isInterface then "" else valueToString existingVal
  (isInterface && ! goDeepEqual (lookupVal newResource.properties key) existingVal) ||
    (existingProperty != stringValue)

/-- Lines 86-111: an encoding error conservatively classifies the
resource as needing an update; otherwise the property loop breaks at the
first differing property. -/
def needsUpdate (newResource : Resource) (existingResource : RGNode) : Bool :=
  match newResource.encodedProperties with
  | none => true
  | some newEncodedProperties =>
    newEncodedProperties.any (fun p => propDiffers newResource existingResource p.1 p.2)

/-- Lines 76-116, the resource differ: each incoming resource is added
when its UID is absent from the baseline, otherwise updated or left
alone according to `needsUpdate`; a matched UID is deleted from the
baseline either way, and whatever remains is the delete set. -/
def diffResources :
    List Resource → List (String × RGNode) →
      List Resource × List Resource × List (String × RGNode)
  | [], existing => ([], [], existing)
  | newResource :: rest, existing =>
    match alookup existing newResource.uid with
    | none =>
      let outcome := diffResources rest existing
      (newResource :: outcome.1, outcome.2.1, outcome.2.2)
    | some existingResource =>
      let outcome := diffResources rest (aerase existing newResource.uid)
      if needsUpdate newResource existingResource then
        (outcome.1, newResource :: outcome.2.1, outcome.2.2)
      else outcome

/-- Lines 141-144: the delete set is read back out of the remaining map
entries through the forced `_uid` string assertion. -/
def deleteUIDsOf (remaining : List (String × RGNode)) : List String :=
  remaining.map (fun p => goStringAssert (lookupVal p.2.properties "_uid"))

/-- Lines 173-189: build the existing-edges map from the edge query
records (three positional columns fed through `valueToString`), keeping
the first record per identity key and counting further ones. -/
def buildExistingEdgesAux :
    List (GoVal × GoVal × GoVal) → List (String × Edge) → Nat →
      List (String × Edge) × Nat
  | [], m, dupCount => (m, dupCount)
  | e :: rest, m, dupCount =>
    let key := getEdgeUID (valueToString e.1) (valueToString e.2.1) (valueToString e.2.2)
    match alookup m key with
    | none =>
      buildExistingEdgesAux rest
        (m ++ [(key, Edge.mk (valueToString e.1) (valueToString e.2.1) (valueToString e.2.2))])
        dupCount
    | some _ => buildExistingEdgesAux rest m (dupCount + 1)

/-- The existing-edges map and its duplicate count. -/
def buildExistingEdges (records : List (GoVal × GoVal × GoVal)) :
    List (String × Edge) × Nat :=
  buildExistingEdgesAux records [] 0

/-- Lines 208-218, the edge differ: every incoming edge marks its key in
the verification set; a key present in the baseline is consumed (no-op),
any other occurrence is appended to `edgesToAdd`.  The verification set
is returned as the list of distinct keys seen. -/
def diffEdges :
    List Edge → List (String × Edge) →
      List String × List Edge × List (String × Edge)
  | [], existing => ([], [], existing)
  | e :: rest, existing =>
    let key := getEdgeUID e.sourceUID e.edgeType e.destUID
    match alookup existing key with
    | some _ =>
      let outcome := diffEdges rest (aerase existing key)
      (if key ∈ outcome.1 then outcome.1 else key :: outcome.1,
        outcome.2.1, outcome.2.2)
    | none =>
      let outcome := diffEdges rest existing
      (if key ∈ outcome.1 then outcome.1 else key :: outcome.1,
        e :: outcome.2.1, outcome.2.2)

/-- A per-item mutation failure as reported by the chunked executor: the
failed item and its error text. -/
structure ResourceError where
  item : String
  message : String
deriving DecidableEq

/-- Modelled from the spec: `processSyncErrors` is not under `src/`; per
the spec the per-item `(item, error)` pairs of a chunked operation are
collected into the response's error list for that category (the verb
only labels the log line), so the pairs are passed through. -/
def processSyncErrors (resourceErrors : List ResourceError) (_verb : String) :
    List ResourceError :=
  resourceErrors

/-- The structured result of one chunked mutation (§4.5 contract):
success count, edge add/delete counts, per-item errors, and an overall
connection-level error. -/
structure ChunkedResponse where
  successfulResources : Nat
  edgesAdded : Nat
  edgesDeleted : Nat
  resourceErrors : List ResourceError
  connectionError : Option String
deriving DecidableEq

/-- The `SyncResponse` assembled by the cycle; Go zero values are `0` and
the empty list. -/
structure SyncResponse where
  totalAdded : Nat
  totalUpdated : Nat
  totalDeleted : Nat
  totalEdgesAdded : Nat
  totalEdgesDeleted : Nat
  addErrors : List ResourceError
  updateErrors : List ResourceError
  deleteErrors : List ResourceError
  addEdgeErrors : List ResourceError
  deleteEdgeErrors : List ResourceError
deriving DecidableEq

/-- The `if ConnectionError != nil \x7b err = ... \x7d else if len(ResourceErrors)
!= 0 \x7b stats.XErrors = processSyncErrors(...) \x7d` pattern repeated for every
mutation: the error list stays at its zero value whenever the connection
error is non-nil, and also when there are no item errors. -/
def respErrors (response : ChunkedResponse) (verb : String) : List ResourceError :=
  match response.connectionError with
  | some _ => []
  | none =>
    if response.resourceErrors.length != 0 then processSyncErrors response.resourceErrors verb
    else []

/-- Assembly of the `stats` fields from the five mutation responses. -/
def mkStats (insertResponse updateResponse deleteResponse insertEdgeResponse
    deleteEdgeResponse : ChunkedResponse) : SyncResponse where
  totalAdded := insertResponse.successfulResources
  totalUpdated := updateResponse.successfulResources
  totalDeleted := deleteResponse.successfulResources
  totalEdgesAdded := insertEdgeResponse.successfulResources
  totalEdgesDeleted := deleteEdgeResponse.successfulResources
  addErrors := respErrors insertResponse "inserted"
  updateErrors := respErrors updateResponse "updated"
  deleteErrors := respErrors deleteResponse "deleted"
  addEdgeErrors := respErrors insertEdgeResponse "inserted by edge"
  deleteEdgeErrors := respErrors deleteEdgeResponse "removed by edge"

/-- The single `err` return variable: an `if X != nil \x7b err = X \x7d`
assignment, so a later error overwrites an earlier one and `nil` leaves
it unchanged. -/
def overrideErr (old : Option String) (new : Option String) : Option String :=
  match new with
  | some e => some e
  | none => old

/-- The external collaborators of one cycle: the two query results (an
`error` value models a failed query, whose result is nil and unusable),
the per-UID duplicate-deletion outcomes, the duplicate-edge deletion
outcome, and the five chunked-mutation responses as functions of their
inputs. -/
structure StoreEnv where
  resourceQueryResult : Except String (List (Option RGNode))
  dupeDeleteFails : String → Bool
  edgeQueryResult : Except String (List (GoVal × GoVal × GoVal))
  dupEdgeDeleteResult : Except String Nat
  insertResp : List Resource → ChunkedResponse
  updateResp : List Resource → ChunkedResponse
  deleteResp : List String → ChunkedResponse
  insertEdgeResp : List Edge → ChunkedResponse
  deleteEdgeResp : List Edge → ChunkedResponse

/-- Everything one completed `resyncCluster` call computed, for the
theorems to inspect: the intermediate sets, the mutation responses, the
assembled `stats`, the returned `err`, and the ordered store operations. -/
structure ResyncTrace where
  existingResources : List (String × RGNode)
  duplicatedResources : List (String × Nat)
  baseline : List (String × RGNode)
  dedupeFailures : List String
  resourcesToAdd : List Resource
  resourcesToUpdate : List Resource
  remainingResources : List (String × RGNode)
  deleteUIDs : List String
  insertResponse : ChunkedResponse
  updateResponse : ChunkedResponse
  deleteResponse : ChunkedResponse
  existingEdges : List (String × Edge)
  edgeDupCount : Nat
  verifyKeys : List String
  edgesToAdd : List Edge
  remainingEdges : List (String × Edge)
  edgesToDelete : List Edge
  insertEdgeResponse : ChunkedResponse
  deleteEdgeResponse : ChunkedResponse
  stats : SyncResponse
  err : Option String
  ops : List StoreOp
deriving DecidableEq

/-- The full trace of one successfully-started cycle (the resource query
returned the given records), with every stage in the source's fixed
order. -/
def resyncTraceOf (env : StoreEnv) (clusterName : String)
    (resources : List Resource) (edges : List Edge)
    (records : List (Option RGNode)) : ResyncTrace :=
    let built := buildExisting records
    let deduped := dedupeResources built.1 built.2 env.dupeDeleteFails
    let diffed := diffResources resources deduped.1
    let insertResponse := env.insertResp diffed.1
    let updateResponse := env.updateResp diffed.2.1
    let deleteUIDs := deleteUIDsOf diffed.2.2
    let deleteResponse := env.deleteResp deleteUIDs
    let builtEdges :=
      match env.edgeQueryResult with
      | Except.ok edgeRecords => buildExistingEdges edgeRecords
      | Except.error _ => ([], 0)
    let edgeDiff := diffEdges edges builtEdges.1
    let edgesToDelete := edgeDiff.2.2.map Prod.snd
    let insertEdgeResponse := env.insertEdgeResp edgeDiff.2.1
    let deleteEdgeResponse := env.deleteEdgeResp edgesToDelete
    let err1 := overrideErr none insertResponse.connectionError
    let err2 := overrideErr err1 updateResponse.connectionError
    let err3 := overrideErr err2 deleteResponse.connectionError
    let err4 :=
      match env.edgeQueryResult with
      | Except.error e => some e
      | Except.ok _ => err3
    let err5 :=
      match env.dupEdgeDeleteResult with
      | Except.error e => some e
      | Except.ok _ => err4
    let err6 := overrideErr err5 insertEdgeResponse.connectionError
    let err7 := overrideErr err6 deleteEdgeResponse.connectionError
    {   existingResources := built.1
        duplicatedResources := built.2
        baseline := deduped.1
        dedupeFailures := deduped.2.2
        resourcesToAdd := diffed.1
        resourcesToUpdate := diffed.2.1
        remainingResources := diffed.2.2
        deleteUIDs := deleteUIDs
        insertResponse := insertResponse
        updateResponse := updateResponse
        deleteResponse := deleteResponse
        existingEdges := builtEdges.1
        edgeDupCount := builtEdges.2
        verifyKeys := edgeDiff.1
        edgesToAdd := edgeDiff.2.1
        remainingEdges := edgeDiff.2.2
        edgesToDelete := edgesToDelete
        insertEdgeResponse := insertEdgeResponse
        deleteEdgeResponse := deleteEdgeResponse
        stats := mkStats insertResponse updateResponse deleteResponse insertEdgeResponse
          deleteEdgeResponse
        err := err7
        ops :=
          [StoreOp.query (resourceQueryStr clusterName)] ++ deduped.2.1 ++
            [StoreOp.chunkedInsert diffed.1 clusterName,
              StoreOp.chunkedUpdate diffed.2.1,
              StoreOp.chunkedDelete deleteUIDs,
              StoreOp.query (edgeQueryStr clusterName),
              StoreOp.query (dupEdgeDeleteQueryStr clusterName),
              StoreOp.chunkedInsertEdge edgeDiff.2.1 clusterName,
              StoreOp.chunkedDeleteEdge edgesToDelete clusterName] }

/-- Embedding of `resyncCluster`.  The resource query runs first; when it
returns an error its result is nil, and the source iterates
`result.Next()` over it without any guard (unlike the edge query, which
is guarded by `edgesError == nil` precisely "to avoid panic if there is
an error executing query"), so that case is a runtime panic, modelled as
`none`.  Otherwise the stages run in the source's fixed order and the
call returns its full trace.  `SyncMetrics` timestamps and the
`computeIntraEdges` log helper have no effect on any returned data and
are not modelled. -/
def resyncCluster (env : StoreEnv) (clusterName : String)
    (resources : List Resource) (edges : List Edge) : Option ResyncTrace :=
  match env.resourceQueryResult with
  | Except.error _ => none
  | Except.ok records => some (resyncTraceOf env clusterName resources edges records)

/-- The post-remediation baseline a cycle diffs against: the scan result
with every duplicated UID stripped. -/
def baselineOf (env : StoreEnv) (records : List (Option RGNode)) : List (String × RGNode) :=
  (dedupeResources (buildExisting records).1 (buildExisting records).2 env.dupeDeleteFails).1

/-- The existing-edges baseline: empty when the edge query failed (the
source guards that loop), otherwise built from the query records. -/
def existingEdgesOf (env : StoreEnv) : List (String × Edge) :=
  (match env.edgeQueryResult with
    | Except.ok edgeRecords => buildExistingEdges edgeRecords
    | Except.error _ => (([] : List (String × Edge)), 0)).1

/-- Decimal digit test on characters, for stating what "base-10 decimal"
means independently of `natDecChars`. -/
def isDigitChar (c : Char) : Bool := 48 ≤ c.toNat && c.toNat ≤ 57

/-- The numeric value that a list of decimal digit characters denotes. -/
def digitsVal (l : List Char) : Nat :=
  l.foldl (fun acc c => 10 * acc + (c.toNat - 48)) 0

/-- How many records of the cluster query result carry the given string
`_uid` (records skipped by the source's type guards do not count). -/
def occCount : List (Option RGNode) → String → Nat
  | [], _ => 0
  | rec? :: rest, uid =>
    match rec? with
    | some n => (if n.uidStr = some uid then 1 else 0) + occCount rest uid
    | none => occCount rest uid

/-- How many edges of a list carry the given identity key. -/
def countEdgesByKey (l : List Edge) (k : String) : Nat :=
  (l.filter (fun e => decide (edgeKey e = k))).length

/-- The spec's wording of "this encoded property differs from the stored
copy": sequence-typed on both sides means deep value inequality of the
resource's raw property against the stored sequence; any other shape
means inequality of the two normalized strings. -/
def DiffersSpec (newResource : Resource) (existingResource : RGNode)
    (key : String) (value : GoVal) : Prop :=
  (isSeqVal value = true ∧ isSeqVal (lookupVal existingResource.properties key) = true ∧
      lookupVal newResource.properties key ≠ lookupVal existingResource.properties key) ∨
    (¬ (isSeqVal value = true ∧ isSeqVal (lookupVal existingResource.properties key) = true) ∧
      valueToString value ≠ valueToString (lookupVal existingResource.properties key))

/-- Invariant of every existing-resources map the source builds: each
entry is keyed by its node's string `_uid`. -/
def uidInv (m : List (String × RGNode)) : Prop :=
  ∀ p ∈ m, RGNode.uidStr p.2 = some p.1

/-- A benign chunked response: no errors, nothing reported done. -/
def benignResponse : ChunkedResponse := ChunkedResponse.mk 0 0 0 [] none

/-- A store environment in which every external call succeeds trivially,
used to evaluate the model at concrete inputs. -/
def benignEnv : StoreEnv where
  resourceQueryResult := Except.ok []
  dupeDeleteFails := fun _ => false
  edgeQueryResult := Except.ok []
  dupEdgeDeleteResult := Except.ok 0
  insertResp := fun _ => benignResponse
  updateResp := fun _ => benignResponse
  deleteResp := fun _ => benignResponse
  insertEdgeResp := fun _ => benignResponse
  deleteEdgeResp := fun _ => benignResponse

/-- The benign environment with a connection-level failure on the
resource insert mutation. -/
def connFailInsertEnv : StoreEnv :=
  { benignEnv with insertResp := fun _ => ChunkedResponse.mk 3 0 0 [] (some "conn refused") }

/-- The benign environment whose resource insert reports both a
connection-level error and per-item errors. -/
def connFailWithItemErrsEnv : StoreEnv :=
  { benignEnv with insertResp := fun _ =>
      ChunkedResponse.mk 2 0 0 [ResourceError.mk "item1" "write failed"] (some "conn lost") }

/-- A query result holding one node with string `_uid` `u`. -/
def oneNodeRecords : List (Option RGNode) :=
  [some (RGNode.mk [("_uid", GoVal.scalar (GoScalar.sstr "u"))])]

/-- The benign environment whose resource query returns `oneNodeRecords`. -/
def oneNodeEnv : StoreEnv :=
  { benignEnv with resourceQueryResult := Except.ok oneNodeRecords }

/-- A query result in which the same string `_uid` `X` appears 3 times
(a store duplication anomaly). -/
def tripleDupeRecords : List (Option RGNode) :=
  [some (RGNode.mk [("_uid", GoVal.scalar (GoScalar.sstr "X"))]),
    some (RGNode.mk [("_uid", GoVal.scalar (GoScalar.sstr "X"))]),
    some (RGNode.mk [("_uid", GoVal.scalar (GoScalar.sstr "X"))])]

/-- The benign environment whose resource query returns
`tripleDupeRecords` and whose per-UID duplicate deletion fails. -/
def tripleDupeEnv : StoreEnv :=
  { benignEnv with
      resourceQueryResult := Except.ok tripleDupeRecords
      dupeDeleteFails := fun _ => true }

/-! Helper lemmas about the modelled Go maps. -/

theorem alookup_append {α : Type} (m₁ m₂ : List (String × α)) (k : String) :
    alookup (m₁ ++ m₂) k =
      match alookup m₁ k with
      | some v => some v
      | none => alookup m₂ k := by
  induction m₁ with
  | nil => simp [alookup]
  | cons p rest ih =>
    by_cases h : p.1 = k <;> simp [alookup, h, ih]

theorem keysNodup_cons {α : Type} {p : String × α} {rest : List (String × α)}
    (hm : keysNodup (p :: rest)) :
    p.1 ∉ rest.map Prod.fst ∧ keysNodup rest := by
  simp only [keysNodup, List.map_cons, List.nodup_cons] at hm
  exact hm

theorem alookup_aerase {α : Type} (m : List (String × α)) (k k' : String) :
    alookup (aerase m k) k' = if k' = k then none else alookup m k' := by
  induction m with
  | nil => simp [alookup, aerase]
  | cons p rest ih =>
    by_cases hpk : p.1 = k
    · rw [aerase, if_pos hpk, ih]
      by_cases h : k' = k
      · simp [h]
      · have hp : ¬ p.1 = k' := fun hc => h (by rw [← hc, hpk])
        rw [if_neg h, if_neg h, alookup, if_neg hp]
    · rw [aerase, if_neg hpk, alookup]
      by_cases hp : p.1 = k'
      · have h : ¬ k' = k := fun hc => hpk (by rw [hp, hc])
        rw [if_pos hp, if_neg h, alookup, if_pos hp]
      · rw [if_neg hp, ih]
        by_cases h : k' = k
        · simp [h]
        · rw [if_neg h, if_neg h, alookup, if_neg hp]

theorem alookup_aupdate {α : Type} (m : List (String × α)) (k k' : String) (v : α) :
    alookup (aupdate m k v) k' =
      if k' = k then (alookup m k).map (fun _ => v) else alookup m k' := by
  induction m with
  | nil => simp [alookup, aupdate]
  | cons p rest ih =>
    simp only [aupdate, List.map_cons] at ih ⊢
    by_cases hpk : p.1 = k
    · rw [if_pos hpk]
      by_cases h : k' = k
      · rw [if_pos h, alookup, if_pos h.symm, alookup, if_pos hpk]
        simp
      · have hp : ¬ k = k' := fun hc => h hc.symm
        rw [if_neg h, alookup, if_neg hp, alookup, if_neg (hpk ▸ hp : ¬ p.1 = k'), ih, if_neg h]
    · rw [if_neg hpk]
      by_cases hp : p.1 = k'
      · have h : ¬ k' = k := fun hc => hpk (by rw [hp, hc])
        rw [if_neg h, alookup, if_pos hp, alookup, if_pos hp]
      · rw [alookup, if_neg hp, ih]
        by_cases h : k' = k
        · rw [if_pos h, if_pos h, alookup, if_neg hpk]
        · rw [if_neg h, if_neg h, alookup, if_neg hp]

theorem mem_keys_iff_alookup {α : Type} (m : List (String × α)) (k : String) :
    k ∈ m.map Prod.fst ↔ (alookup m k).isSome := by
  induction m with
  | nil => simp [alookup]
  | cons p rest ih =>
    simp only [List.map_cons, List.mem_cons, alookup]
    by_cases h : p.1 = k
    · simp [h]
    · have : ¬ k = p.1 := fun hc => h hc.symm
      simp [h, this, ih]

theorem alookup_eq_some_iff_mem {α : Type} (m : List (String × α)) (k : String) (v : α)
    (hm : keysNodup m) : alookup m k = some v ↔ (k, v) ∈ m := by
  induction m with
  | nil => simp [alookup]
  | cons p rest ih =>
    obtain ⟨hp1, hrest⟩ := keysNodup_cons hm
    rw [alookup, List.mem_cons]
    by_cases h : p.1 = k
    · have hkn : (k, v) ∉ rest := fun hmem =>
        hp1 (h ▸ List.mem_map.mpr ⟨(k, v), hmem, rfl⟩)
      rw [if_pos h]
      constructor
      · intro hv
        left
        cases p
        cases h
        cases Option.some.inj hv
        rfl
      · intro hv
        rcases hv with hv | hv
        · rw [← hv]
        · exact absurd hv hkn
    · rw [if_neg h, ih hrest]
      constructor
      · exact Or.inr
      · intro hv
        rcases hv with hv | hv
        · exact absurd (congrArg Prod.fst hv.symm) h
        · exact hv

theorem aerase_sublist {α : Type} (m : List (String × α)) (k : String) :
    (aerase m k).Sublist m := by
  induction m with
  | nil => simp [aerase]
  | cons p rest ih =>
    by_cases h : p.1 = k
    · rw [aerase, if_pos h]
      exact ih.cons p
    · rw [aerase, if_neg h]
      exact ih.cons₂ p

theorem keysNodup_of_sublist {α : Type} {m m' : List (String × α)}
    (hsub : m'.Sublist m) (hm : keysNodup m) : keysNodup m' :=
  List.Nodup.sublist (List.Sublist.map Prod.fst hsub) hm

theorem keysNodup_append_singleton {α : Type} {m : List (String × α)} {k : String} {v : α}
    (hm : keysNodup m) (hk : alookup m k = none) : keysNodup (m ++ [(k, v)]) := by
  have hkn : k ∉ m.map Prod.fst := by
    intro hmem
    have := (mem_keys_iff_alookup m k).mp hmem
    simp [hk] at this
  simp only [keysNodup, List.map_append, List.map_cons, List.map_nil]
  rw [List.nodup_append]
  refine ⟨hm, List.nodup_singleton k, ?_⟩
  intro x hx hy
  simp at hy
  exact hkn (hy ▸ hx)

/-! Correctness of the base-10 digit loop. -/

theorem digitChar_toNat {d : Nat} (hd : d < 10) : (digitChar d).toNat = 48 + d := by
  interval_cases d <;> decide

theorem isDigitChar_digitChar {d : Nat} (hd : d < 10) : isDigitChar (digitChar d) = true := by
  interval_cases d <;> decide

theorem digitsVal_append_singleton (l : List Char) (c : Char) :
    digitsVal (l ++ [c]) = 10 * digitsVal l + (c.toNat - 48) := by
  simp [digitsVal, List.foldl_append]

theorem natDecCharsAux_spec :
    ∀ fuel n, n < fuel →
      (natDecCharsAux fuel n).all isDigitChar = true ∧
      digitsVal (natDecCharsAux fuel n) = n ∧
      natDecCharsAux fuel n ≠ [] ∧
      (1 ≤ n → (natDecCharsAux fuel n).head? ≠ some (Char.ofNat 48)) := by
  intro fuel
  induction fuel with
  | zero => intro n hn; omega
  | succ fuel ih =>
    intro n hn
    by_cases h10 : n < 10
    · refine ⟨?_, ?_, ?_, ?_⟩ <;> simp [natDecCharsAux, h10]
      · exact isDigitChar_digitChar h10
      · simp [digitsVal, digitChar_toNat h10]
      · intro h1 hc
        have := congrArg Char.toNat hc
        rw [digitChar_toNat h10] at this
        have h48 : (Char.ofNat 48).toNat = 48 := by decide
        omega
    · have hdiv : n / 10 < n := Nat.div_lt_self (by omega) (by omega)
      have hfuel : n / 10 < fuel := by omega
      obtain ⟨ihall, ihval, ihne, ihhead⟩ := ih (n / 10) hfuel
      have hmod : n % 10 < 10 := Nat.mod_lt n (by omega)
      refine ⟨?_, ?_, ?_, ?_⟩
      · simp [natDecCharsAux, h10, List.all_append, ihall, isDigitChar_digitChar hmod]
      · simp only [natDecCharsAux, if_neg h10]
        rw [digitsVal_append_singleton, ihval, digitChar_toNat hmod]
        omega
      · simp [natDecCharsAux, h10]
      · intro _
        simp only [natDecCharsAux, if_neg h10]
        obtain ⟨a, t, hat⟩ := List.exists_cons_of_ne_nil ihne
        rw [hat]
        have hh := ihhead (by omega)
        rw [hat] at hh
        simpa using hh

theorem natDecChars_spec (n : Nat) :
    (natDecChars n).all isDigitChar = true ∧
    digitsVal (natDecChars n) = n ∧
    natDecChars n ≠ [] ∧
    (1 ≤ n → (natDecChars n).head? ≠ some (Char.ofNat 48)) :=
  natDecCharsAux_spec (n + 1) n (Nat.lt_succ_self n)

/-! Characterization of the resource differ. -/

theorem diffResources_cons_none {r : Resource} {rest : List Resource}
    {m : List (String × RGNode)} (hl : alookup m r.uid = none) :
    diffResources (r :: rest) m =
      (r :: (diffResources rest m).1, (diffResources rest m).2.1,
        (diffResources rest m).2.2) := by
  simp only [diffResources, hl]

theorem diffResources_cons_some {r : Resource} {rest : List Resource}
    {m : List (String × RGNode)} {node : RGNode} (hl : alookup m r.uid = some node) :
    diffResources (r :: rest) m =
      ((diffResources rest (aerase m r.uid)).1,
        (if needsUpdate r node then
          r :: (diffResources rest (aerase m r.uid)).2.1
        else (diffResources rest (aerase m r.uid)).2.1),
        (diffResources rest (aerase m r.uid)).2.2) := by
  simp only [diffResources, hl]
  by_cases hu : needsUpdate r node
  · rw [if_pos hu, if_pos hu]
  · rw [if_neg hu, if_neg hu]

theorem diffResources_adds_sublist (rs : List Resource) :
    ∀ m, (diffResources rs m).1.Sublist rs := by
  induction rs with
  | nil => intro m; simp [diffResources]
  | cons r rest ih =>
    intro m
    cases hl : alookup m r.uid with
    | none =>
      rw [diffResources_cons_none hl]
      exact (ih m).cons₂ r
    | some node =>
      rw [diffResources_cons_some hl]
      exact (ih _).cons r

theorem diffResources_upds_sublist (rs : List Resource) :
    ∀ m, (diffResources rs m).2.1.Sublist rs := by
  induction rs with
  | nil => intro m; simp [diffResources]
  | cons r rest ih =>
    intro m
    cases hl : alookup m r.uid with
    | none =>
      rw [diffResources_cons_none hl]
      exact (ih m).cons r
    | some node =>
      rw [diffResources_cons_some hl]
      by_cases hu : needsUpdate r node
      · simp only [if_pos hu]
        exact (ih _).cons₂ r
      · simp only [if_neg hu]
        exact (ih _).cons r

theorem diffResources_rem_sublist (rs : List Resource) :
    ∀ m, (diffResources rs m).2.2.Sublist m := by
  induction rs with
  | nil => intro m; simp [diffResources]
  | cons r rest ih =>
    intro m
    cases hl : alookup m r.uid with
    | none =>
      rw [diffResources_cons_none hl]
      exact ih m
    | some node =>
      rw [diffResources_cons_some hl]
      exact ((ih _).trans (aerase_sublist m r.uid))

theorem diffResources_rem_alookup (rs : List Resource) :
    ∀ m k, alookup (diffResources rs m).2.2 k =
      if k ∈ rs.map Resource.uid then none else alookup m k := by
  induction rs with
  | nil => intro m k; simp [diffResources]
  | cons r rest ih =>
    intro m k
    by_cases hk1 : k = r.uid
    · cases hl : alookup m r.uid with
      | none =>
        rw [diffResources_cons_none hl]
        simp only [ih]
        by_cases hkr : k ∈ rest.map Resource.uid
        · rw [if_pos hkr, if_pos (by simp [hk1])]
        · rw [if_neg hkr, if_pos (by simp [hk1]), hk1, hl]
      | some node =>
        rw [diffResources_cons_some hl]
        simp only [ih]
        by_cases hkr : k ∈ rest.map Resource.uid
        · rw [if_pos hkr, if_pos (by simp [hk1])]
        · rw [if_neg hkr, if_pos (by simp [hk1]), alookup_aerase, if_pos hk1]
    · have hcons : k ∈ (r :: rest).map Resource.uid ↔ k ∈ rest.map Resource.uid := by
        rw [List.map_cons, List.mem_cons]
        exact ⟨fun h => h.resolve_left hk1, Or.inr⟩
      cases hl : alookup m r.uid with
      | none =>
        rw [diffResources_cons_none hl]
        simp only [ih]
        by_cases hkr : k ∈ rest.map Resource.uid
        · rw [if_pos hkr, if_pos (hcons.mpr hkr)]
        · rw [if_neg hkr, if_neg (fun h => hkr (hcons.mp h))]
      | some node =>
        rw [diffResources_cons_some hl]
        simp only [ih]
        by_cases hkr : k ∈ rest.map Resource.uid
        · rw [if_pos hkr, if_pos (hcons.mpr hkr)]
        · rw [if_neg hkr, if_neg (fun h => hkr (hcons.mp h)), alookup_aerase, if_neg hk1]

theorem diffResources_mem_adds (rs : List Resource)
    (hnd : (rs.map Resource.uid).Nodup) (r : Resource) :
    ∀ m, r ∈ (diffResources rs m).1 ↔ r ∈ rs ∧ alookup m r.uid = none := by
  induction rs with
  | nil => intro m; simp [diffResources]
  | cons r' rest ih =>
    have hnd' : (rest.map Resource.uid).Nodup := (List.nodup_cons.mp (by simpa using hnd)).2
    have hr'mem : r'.uid ∉ rest.map Resource.uid := (List.nodup_cons.mp (by simpa using hnd)).1
    intro m
    cases hl : alookup m r'.uid with
    | none =>
      rw [diffResources_cons_none hl]
      simp only [List.mem_cons]
      constructor
      · intro h
        rcases h with h | h
        · exact ⟨Or.inl h, h ▸ hl⟩
        · obtain ⟨hmem, hlk⟩ := (ih hnd' m).mp h
          exact ⟨Or.inr hmem, hlk⟩
      · intro ⟨hmem, hlk⟩
        rcases hmem with hmem | hmem
        · exact Or.inl hmem
        · exact Or.inr ((ih hnd' m).mpr ⟨hmem, hlk⟩)
    | some node =>
      have key : ∀ q : Resource, q ∈ rest → alookup (aerase m r'.uid) q.uid = alookup m q.uid := by
        intro q hq
        have : ¬ q.uid = r'.uid := fun hc =>
          hr'mem (hc ▸ List.mem_map.mpr ⟨q, hq, rfl⟩)
        rw [alookup_aerase, if_neg this]
      rw [diffResources_cons_some hl]
      show r ∈ (diffResources rest (aerase m r'.uid)).1 ↔ _
      rw [ih hnd' (aerase m r'.uid)]
      simp only [List.mem_cons]
      constructor
      · intro ⟨hmem, hlk⟩
        rw [key r hmem] at hlk
        exact ⟨Or.inr hmem, hlk⟩
      · intro ⟨hmem, hlk⟩
        rcases hmem with hmem | hmem
        · exfalso
          rw [hmem, hl] at hlk
          exact Option.noConfusion hlk
        · exact ⟨hmem, (key r hmem).symm ▸ hlk⟩

theorem diffResources_mem_upds (rs : List Resource)
    (hnd : (rs.map Resource.uid).Nodup) (r : Resource) :
    ∀ m, r ∈ (diffResources rs m).2.1 ↔
      r ∈ rs ∧ ∃ node, alookup m r.uid = some node ∧ needsUpdate r node = true := by
  induction rs with
  | nil => intro m; simp [diffResources]
  | cons r' rest ih =>
    have hnd' : (rest.map Resource.uid).Nodup := (List.nodup_cons.mp (by simpa using hnd)).2
    have hr'mem : r'.uid ∉ rest.map Resource.uid := (List.nodup_cons.mp (by simpa using hnd)).1
    intro m
    have key : ∀ q : Resource, q ∈ rest → alookup (aerase m r'.uid) q.uid = alookup m q.uid := by
      intro q hq
      have : ¬ q.uid = r'.uid := fun hc =>
        hr'mem (hc ▸ List.mem_map.mpr ⟨q, hq, rfl⟩)
      rw [alookup_aerase, if_neg this]
    have main : ∀ mm, (∀ q : Resource, q ∈ rest → alookup mm q.uid = alookup m q.uid) →
        (r ∈ (diffResources rest mm).2.1 ↔
          (r ∈ rest ∧ ∃ node, alookup m r.uid = some node ∧ needsUpdate r node = true)) := by
      intro mm hmm
      rw [ih hnd' mm]
      constructor
      · intro ⟨hmem, node, hlk, hup⟩
        exact ⟨hmem, node, (hmm r hmem) ▸ hlk, hup⟩
      · intro ⟨hmem, node, hlk, hup⟩
        exact ⟨hmem, node, (hmm r hmem).symm ▸ hlk, hup⟩
    cases hl : alookup m r'.uid with
    | none =>
      rw [diffResources_cons_none hl]
      show r ∈ (diffResources rest m).2.1 ↔ _
      rw [main m (fun q _ => rfl)]
      simp only [List.mem_cons]
      constructor
      · intro ⟨hmem, hrest⟩
        exact ⟨Or.inr hmem, hrest⟩
      · intro ⟨hmem, node, hlk, hup⟩
        rcases hmem with hmem | hmem
        · exfalso
          rw [hmem, hl] at hlk
          exact Option.noConfusion hlk
        · exact ⟨hmem, node, hlk, hup⟩
    | some node =>
      rw [diffResources_cons_some hl]
      by_cases hu : needsUpdate r' node = true
      · simp only [if_pos hu]
        show r ∈ r' :: (diffResources rest (aerase m r'.uid)).2.1 ↔ _
        rw [List.mem_cons, main (aerase m r'.uid) key]
        simp only [List.mem_cons]
        constructor
        · intro h
          rcases h with h | ⟨hmem, hrest⟩
          · exact ⟨Or.inl h, node, h ▸ hl, by rw [h]; exact hu⟩
          · exact ⟨Or.inr hmem, hrest⟩
        · intro ⟨hmem, node', hlk, hup⟩
          rcases hmem with hmem | hmem
          · exact Or.inl hmem
          · exact Or.inr ⟨hmem, node', hlk, hup⟩
      · simp only [if_neg hu]
        show r ∈ (diffResources rest (aerase m r'.uid)).2.1 ↔ _
        rw [main (aerase m r'.uid) key]
        simp only [List.mem_cons]
        constructor
        · intro ⟨hmem, hrest⟩
          exact ⟨Or.inr hmem, hrest⟩
        · intro ⟨hmem, node', hlk, hup⟩
          rcases hmem with hmem | hmem
          · exfalso
            rw [hmem, hl] at hlk
            cases Option.some.inj hlk
            rw [hmem] at hup
            exact hu hup
          · exact ⟨hmem, node', hlk, hup⟩

/-! Characterization of the edge differ. -/

theorem diffEdges_cons_none {e : Edge} {rest : List Edge}
    {m : List (String × Edge)} (hl : alookup m (edgeKey e) = none) :
    diffEdges (e :: rest) m =
      ((if edgeKey e ∈ (diffEdges rest m).1 then (diffEdges rest m).1
        else edgeKey e :: (diffEdges rest m).1),
        e :: (diffEdges rest m).2.1, (diffEdges rest m).2.2) := by
  have hl' : alookup m (getEdgeUID e.sourceUID e.edgeType e.destUID) = none := hl
  simp only [diffEdges, hl', edgeKey]

theorem diffEdges_cons_some {e e' : Edge} {rest : List Edge}
    {m : List (String × Edge)} (hl : alookup m (edgeKey e) = some e') :
    diffEdges (e :: rest) m =
      ((if edgeKey e ∈ (diffEdges rest (aerase m (edgeKey e))).1 then
          (diffEdges rest (aerase m (edgeKey e))).1
        else edgeKey e :: (diffEdges rest (aerase m (edgeKey e))).1),
        (diffEdges rest (aerase m (edgeKey e))).2.1,
        (diffEdges rest (aerase m (edgeKey e))).2.2) := by
  have hl' : alookup m (getEdgeUID e.sourceUID e.edgeType e.destUID) = some e' := hl
  simp only [diffEdges, hl', edgeKey]

theorem mem_insertVerify {k key : String} {v : List String} :
    k ∈ (if key ∈ v then v else key :: v) ↔ k = key ∨ k ∈ v := by
  by_cases h : key ∈ v
  · rw [if_pos h]
    exact ⟨Or.inr, fun hc => hc.elim (fun he => he ▸ h) id⟩
  · rw [if_neg h, List.mem_cons]

theorem diffEdges_verify_mem (es : List Edge) :
    ∀ m k, k ∈ (diffEdges es m).1 ↔ k ∈ es.map edgeKey := by
  induction es with
  | nil => intro m k; simp [diffEdges]
  | cons e rest ih =>
    intro m k
    rw [List.map_cons, List.mem_cons]
    cases hl : alookup m (edgeKey e) with
    | none =>
      rw [diffEdges_cons_none hl]
      show k ∈ (if edgeKey e ∈ _ then _ else _) ↔ _
      rw [mem_insertVerify, ih m k]
    | some e' =>
      rw [diffEdges_cons_some hl]
      show k ∈ (if edgeKey e ∈ _ then _ else _) ↔ _
      rw [mem_insertVerify, ih _ k]

theorem diffEdges_verify_nodup (es : List Edge) :
    ∀ m, (diffEdges es m).1.Nodup := by
  induction es with
  | nil => intro m; simp [diffEdges]
  | cons e rest ih =>
    intro m
    cases hl : alookup m (edgeKey e) with
    | none =>
      rw [diffEdges_cons_none hl]
      show List.Nodup (if edgeKey e ∈ _ then _ else _)
      by_cases h : edgeKey e ∈ (diffEdges rest m).1
      · rw [if_pos h]; exact ih m
      · rw [if_neg h]; exact List.Nodup.cons h (ih m)
    | some e' =>
      rw [diffEdges_cons_some hl]
      show List.Nodup (if edgeKey e ∈ _ then _ else _)
      by_cases h : edgeKey e ∈ (diffEdges rest (aerase m (edgeKey e))).1
      · rw [if_pos h]; exact ih _
      · rw [if_neg h]; exact List.Nodup.cons h (ih _)

theorem diffEdges_adds_sublist (es : List Edge) :
    ∀ m, (diffEdges es m).2.1.Sublist es := by
  induction es with
  | nil => intro m; simp [diffEdges]
  | cons e rest ih =>
    intro m
    cases hl : alookup m (edgeKey e) with
    | none =>
      rw [diffEdges_cons_none hl]
      exact (ih m).cons₂ e
    | some e' =>
      rw [diffEdges_cons_some hl]
      exact (ih _).cons e

theorem diffEdges_rem_sublist (es : List Edge) :
    ∀ m, (diffEdges es m).2.2.Sublist m := by
  induction es with
  | nil => intro m; simp [diffEdges]
  | cons e rest ih =>
    intro m
    cases hl : alookup m (edgeKey e) with
    | none =>
      rw [diffEdges_cons_none hl]
      exact ih m
    | some e' =>
      rw [diffEdges_cons_some hl]
      exact (ih _).trans (aerase_sublist m (edgeKey e))

theorem diffEdges_rem_alookup (es : List Edge) :
    ∀ m k, alookup (diffEdges es m).2.2 k =
      if k ∈ es.map edgeKey then none else alookup m k := by
  induction es with
  | nil => intro m k; simp [diffEdges]
  | cons e rest ih =>
    intro m k
    by_cases hk1 : k = edgeKey e
    · cases hl : alookup m (edgeKey e) with
      | none =>
        rw [diffEdges_cons_none hl]
        show alookup (diffEdges rest m).2.2 k = _
        rw [ih m k]
        by_cases hkr : k ∈ rest.map edgeKey
        · rw [if_pos hkr, if_pos (by simp [hk1])]
        · rw [if_neg hkr, if_pos (by simp [hk1]), hk1, hl]
      | some e' =>
        rw [diffEdges_cons_some hl]
        show alookup (diffEdges rest (aerase m (edgeKey e))).2.2 k = _
        rw [ih _ k]
        by_cases hkr : k ∈ rest.map edgeKey
        · rw [if_pos hkr, if_pos (by simp [hk1])]
        · rw [if_neg hkr, if_pos (by simp [hk1]), alookup_aerase, if_pos hk1]
    · have hcons : k ∈ (e :: rest).map edgeKey ↔ k ∈ rest.map edgeKey := by
        rw [List.map_cons, List.mem_cons]
        exact ⟨fun h => h.resolve_left hk1, Or.inr⟩
      cases hl : alookup m (edgeKey e) with
      | none =>
        rw [diffEdges_cons_none hl]
        show alookup (diffEdges rest m).2.2 k = _
        rw [ih m k]
        by_cases hkr : k ∈ rest.map edgeKey
        · rw [if_pos hkr, if_pos (hcons.mpr hkr)]
        · rw [if_neg hkr, if_neg (fun h => hkr (hcons.mp h))]
      | some e' =>
        rw [diffEdges_cons_some hl]
        show alookup (diffEdges rest (aerase m (edgeKey e))).2.2 k = _
        rw [ih _ k]
        by_cases hkr : k ∈ rest.map edgeKey
        · rw [if_pos hkr, if_pos (hcons.mpr hkr)]
        · rw [if_neg hkr, if_neg (fun h => hkr (hcons.mp h)), alookup_aerase, if_neg hk1]

theorem countEdgesByKey_cons (e : Edge) (l : List Edge) (k : String) :
    countEdgesByKey (e :: l) k =
      (if edgeKey e = k then 1 else 0) + countEdgesByKey l k := by
  by_cases h : edgeKey e = k
  · simp [countEdgesByKey, List.filter_cons, h, Nat.add_comm]
  · simp [countEdgesByKey, List.filter_cons, h]

theorem diffEdges_count (es : List Edge) :
    ∀ m k, countEdgesByKey (diffEdges es m).2.1 k =
      countEdgesByKey es k - (if (alookup m k).isSome then 1 else 0) := by
  induction es with
  | nil =>
    intro m k
    simp [diffEdges, countEdgesByKey]
  | cons e rest ih =>
    intro m k
    rw [countEdgesByKey_cons]
    cases hl : alookup m (edgeKey e) with
    | none =>
      rw [diffEdges_cons_none hl]
      show countEdgesByKey (e :: (diffEdges rest m).2.1) k = _
      rw [countEdgesByKey_cons, ih m k]
      by_cases hk : edgeKey e = k
      · have hmk : alookup m k = none := hk ▸ hl
        rw [hmk]
        simp
      · rw [if_neg hk]
        simp
    | some e' =>
      rw [diffEdges_cons_some hl]
      show countEdgesByKey (diffEdges rest (aerase m (edgeKey e))).2.1 k = _
      rw [ih _ k, alookup_aerase]
      by_cases hk : k = edgeKey e
      · have hmk : alookup m k = some e' := by rw [hk]; exact hl
        rw [if_pos hk, hmk, if_pos hk.symm]
        simp
      · rw [if_neg hk, if_neg (show ¬ edgeKey e = k from fun hc => hk hc.symm)]
        simp

theorem diffEdges_mem_adds (es : List Edge) (hnd : (es.map edgeKey).Nodup) (e : Edge) :
    ∀ m, e ∈ (diffEdges es m).2.1 ↔ e ∈ es ∧ alookup m (edgeKey e) = none := by
  induction es with
  | nil => intro m; simp [diffEdges]
  | cons e' rest ih =>
    have hnd' : (rest.map edgeKey).Nodup := (List.nodup_cons.mp (by simpa using hnd)).2
    have he'mem : edgeKey e' ∉ rest.map edgeKey := (List.nodup_cons.mp (by simpa using hnd)).1
    intro m
    cases hl : alookup m (edgeKey e') with
    | none =>
      rw [diffEdges_cons_none hl]
      show e ∈ e' :: (diffEdges rest m).2.1 ↔ _
      rw [List.mem_cons, ih hnd' m]
      simp only [List.mem_cons]
      constructor
      · intro h
        rcases h with h | ⟨hmem, hlk⟩
        · exact ⟨Or.inl h, h ▸ hl⟩
        · exact ⟨Or.inr hmem, hlk⟩
      · intro ⟨hmem, hlk⟩
        rcases hmem with hmem | hmem
        · exact Or.inl hmem
        · exact Or.inr ⟨hmem, hlk⟩
    | some enode =>
      rw [diffEdges_cons_some hl]
      show e ∈ (diffEdges rest (aerase m (edgeKey e'))).2.1 ↔ _
      rw [ih hnd' _]
      simp only [List.mem_cons]
      have key : ∀ q : Edge, q ∈ rest →
          alookup (aerase m (edgeKey e')) (edgeKey q) = alookup m (edgeKey q) := by
        intro q hq
        have : ¬ edgeKey q = edgeKey e' := fun hc =>
          he'mem (hc ▸ List.mem_map.mpr ⟨q, hq, rfl⟩)
        rw [alookup_aerase, if_neg this]
      constructor
      · intro ⟨hmem, hlk⟩
        rw [key e hmem] at hlk
        exact ⟨Or.inr hmem, hlk⟩
      · intro ⟨hmem, hlk⟩
        rcases hmem with hmem | hmem
        · exfalso
          rw [hmem, hl] at hlk
          exact Option.noConfusion hlk
        · exact ⟨hmem, (key e hmem).symm ▸ hlk⟩

/-! Properties of the existing-resources scan and the duplicate resolver. -/

theorem alookup_append_right_isSome {α : Type} (m₁ m₂ : List (String × α)) (k : String)
    (h : (alookup m₁ k).isSome = true) : (alookup (m₁ ++ m₂) k).isSome = true := by
  rw [alookup_append]
  cases hm : alookup m₁ k with
  | none => rw [hm] at h; simp at h
  | some v => simp

theorem alookup_append_singleton_self {α : Type} {m : List (String × α)} {k : String} {v : α}
    (h : alookup m k = none) : alookup (m ++ [(k, v)]) k = some v := by
  rw [alookup_append, h]
  simp [alookup]

theorem buildExistingAux_keysNodup (recs : List (Option RGNode)) :
    ∀ ex dups, keysNodup ex → keysNodup (buildExistingAux recs ex dups).1 := by
  induction recs with
  | nil => intro ex dups h; simpa [buildExistingAux] using h
  | cons rec? rest ih =>
    intro ex dups h
    cases rec? with
    | none => simp only [buildExistingAux]; exact ih ex dups h
    | some rgNode =>
      cases hu : rgNode.uidStr with
      | none => simp only [buildExistingAux, hu]; exact ih ex dups h
      | some uid =>
        cases hex : alookup ex uid with
        | some node =>
          cases hd : alookup dups uid with
          | none => simp only [buildExistingAux, hu, hex, hd]; exact ih ex _ h
          | some c => simp only [buildExistingAux, hu, hex, hd]; exact ih ex _ h
        | none =>
          simp only [buildExistingAux, hu, hex]
          exact ih _ dups (keysNodup_append_singleton h hex)

theorem buildExistingAux_uidInv (recs : List (Option RGNode)) :
    ∀ ex dups, uidInv ex → uidInv (buildExistingAux recs ex dups).1 := by
  induction recs with
  | nil => intro ex dups h; simpa [buildExistingAux] using h
  | cons rec? rest ih =>
    intro ex dups h
    cases rec? with
    | none => simp only [buildExistingAux]; exact ih ex dups h
    | some rgNode =>
      cases hu : rgNode.uidStr with
      | none => simp only [buildExistingAux, hu]; exact ih ex dups h
      | some uid =>
        cases hex : alookup ex uid with
        | some node =>
          cases hd : alookup dups uid with
          | none => simp only [buildExistingAux, hu, hex, hd]; exact ih ex _ h
          | some c => simp only [buildExistingAux, hu, hex, hd]; exact ih ex _ h
        | none =>
          simp only [buildExistingAux, hu, hex]
          apply ih
          intro p hp
          rcases List.mem_append.mp hp with hp | hp
          · exact h p hp
          · have : p = (uid, rgNode) := by simpa using hp
            rw [this]
            exact hu

theorem buildExisting_keysNodup (recs : List (Option RGNode)) :
    keysNodup (buildExisting recs).1 :=
  buildExistingAux_keysNodup recs [] [] (by simp [keysNodup])

theorem buildExisting_uidInv (recs : List (Option RGNode)) :
    uidInv (buildExisting recs).1 :=
  buildExistingAux_uidInv recs [] [] (by intro p hp; simp at hp)

theorem buildExistingAux_dups (recs : List (Option RGNode)) :
    ∀ ex dups uid,
      (2 ≤ occCount recs uid ∨
        (1 ≤ occCount recs uid ∧ (alookup ex uid).isSome = true) ∨
        (alookup dups uid).isSome = true) →
      (alookup (buildExistingAux recs ex dups).2 uid).isSome = true := by
  induction recs with
  | nil =>
    intro ex dups uid h
    simp only [buildExistingAux]
    rcases h with h | h | h
    · simp [occCount] at h
    · obtain ⟨h1, _⟩ := h
      simp [occCount] at h1
    · exact h
  | cons rec? rest ih =>
    intro ex dups uid h
    cases rec? with
    | none =>
      simp only [buildExistingAux]
      apply ih
      have hocc : occCount (none :: rest) uid = occCount rest uid := by simp [occCount]
      rw [hocc] at h
      exact h
    | some rgNode =>
      cases hu : rgNode.uidStr with
      | none =>
        simp only [buildExistingAux, hu]
        apply ih
        have hocc : occCount (some rgNode :: rest) uid = occCount rest uid := by
          simp [occCount, hu]
        rw [hocc] at h
        exact h
      | some u =>
        by_cases huid : u = uid
        · subst huid
          have hocc : occCount (some rgNode :: rest) u = 1 + occCount rest u := by
            simp [occCount, hu]
          rw [hocc] at h
          cases hex : alookup ex u with
          | some node =>
            cases hd : alookup dups u with
            | none =>
              simp only [buildExistingAux, hu, hex, hd]
              apply ih
              right; right
              rw [alookup_append_singleton_self hd]
              rfl
            | some c =>
              simp only [buildExistingAux, hu, hex, hd]
              apply ih
              right; right
              rw [alookup_aupdate, if_pos rfl, hd]
              rfl
          | none =>
            simp only [buildExistingAux, hu, hex]
            apply ih
            rcases h with h | h | h
            · right; left
              refine ⟨by omega, ?_⟩
              rw [alookup_append_singleton_self hex]
              rfl
            · rw [hex] at h
              exact absurd h.2 (by simp)
            · right; right; exact h
        · have hocc : occCount (some rgNode :: rest) uid = occCount rest uid := by
            simp [occCount, hu, huid]
          rw [hocc] at h
          have hne : ¬ uid = u := fun hc => huid hc.symm
          cases hex : alookup ex u with
          | some node =>
            cases hd : alookup dups u with
            | none =>
              simp only [buildExistingAux, hu, hex, hd]
              apply ih
              rcases h with h | h | h
              · exact Or.inl h
              · exact Or.inr (Or.inl h)
              · right; right
                exact alookup_append_right_isSome dups [(u, 1)] uid h
            | some c =>
              simp only [buildExistingAux, hu, hex, hd]
              apply ih
              rcases h with h | h | h
              · exact Or.inl h
              · exact Or.inr (Or.inl h)
              · right; right
                rw [alookup_aupdate, if_neg hne]
                exact h
          | none =>
            simp only [buildExistingAux, hu, hex]
            apply ih
            rcases h with h | h | h
            · exact Or.inl h
            · right; left
              refine ⟨h.1, ?_⟩
              exact alookup_append_right_isSome ex [(u, rgNode)] uid h.2
            · right; right; exact h

theorem buildExisting_dups (recs : List (Option RGNode)) (uid : String)
    (h : 2 ≤ occCount recs uid) :
    (alookup (buildExisting recs).2 uid).isSome = true :=
  buildExistingAux_dups recs [] [] uid (Or.inl h)

theorem dedupeResourcesAux_baseline (delFails : String → Bool) (dups : List (String × Nat)) :
    ∀ ex uid, alookup (dedupeResourcesAux delFails dups ex).1 uid =
      if uid ∈ dups.map Prod.fst then none else alookup ex uid := by
  induction dups with
  | nil => intro ex uid; simp [dedupeResourcesAux]
  | cons p rest ih =>
    intro ex uid
    simp only [dedupeResourcesAux]
    rw [ih, List.map_cons, alookup_aerase]
    by_cases h1 : uid ∈ rest.map Prod.fst
    · rw [if_pos h1, if_pos (List.mem_cons_of_mem _ h1)]
    · rw [if_neg h1]
      by_cases h2 : uid = p.1
      · rw [if_pos h2, if_pos (by rw [List.mem_cons]; exact Or.inl h2)]
      · rw [if_neg h2, if_neg (by rw [List.mem_cons]; rintro (hc | hc); exact h2 hc; exact h1 hc)]

theorem dedupeResourcesAux_ops (delFails : String → Bool) (dups : List (String × Nat)) :
    ∀ ex, (dedupeResourcesAux delFails dups ex).2.1 =
      dups.map (fun p => StoreOp.query (dupUidDeleteQueryStr p.1)) := by
  induction dups with
  | nil => intro ex; simp [dedupeResourcesAux]
  | cons p rest ih =>
    intro ex
    simp only [dedupeResourcesAux, List.map_cons]
    rw [ih]

theorem dedupeResourcesAux_failures (delFails : String → Bool) (dups : List (String × Nat)) :
    ∀ ex, (dedupeResourcesAux delFails dups ex).2.2 =
      (dups.filter (fun p => delFails p.1)).map Prod.fst := by
  induction dups with
  | nil => intro ex; simp [dedupeResourcesAux]
  | cons p rest ih =>
    intro ex
    simp only [dedupeResourcesAux, List.filter_cons]
    by_cases h : delFails p.1 = true
    · rw [if_pos h, ih]
      simp [h]
    · rw [if_neg h, ih]
      simp [h]

theorem dedupeResourcesAux_sublist (delFails : String → Bool) (dups : List (String × Nat)) :
    ∀ ex, ((dedupeResourcesAux delFails dups ex).1).Sublist ex := by
  induction dups with
  | nil => intro ex; simp [dedupeResourcesAux]
  | cons p rest ih =>
    intro ex
    simp only [dedupeResourcesAux]
    exact (ih _).trans (aerase_sublist ex p.1)

theorem dedupeResources_baseline (ex : List (String × RGNode)) (dups : List (String × Nat))
    (delFails : String → Bool) (uid : String) :
    alookup (dedupeResources ex dups delFails).1 uid =
      if uid ∈ dups.map Prod.fst then none else alookup ex uid := by
  by_cases h : dups.length > 0
  · rw [dedupeResources, if_pos h, dedupeResourcesAux_baseline]
  · have : dups = [] := by
      cases dups with
      | nil => rfl
      | cons a b => exfalso; exact h (by simp)
    rw [dedupeResources, this]
    simp [alookup]

theorem dedupeResources_ops (ex : List (String × RGNode)) (dups : List (String × Nat))
    (delFails : String → Bool) :
    (dedupeResources ex dups delFails).2.1 =
      dups.map (fun p => StoreOp.query (dupUidDeleteQueryStr p.1)) := by
  by_cases h : dups.length > 0
  · rw [dedupeResources, if_pos h, dedupeResourcesAux_ops]
  · have : dups = [] := by
      cases dups with
      | nil => rfl
      | cons a b => exfalso; exact h (by simp)
    rw [dedupeResources, this]
    simp

theorem dedupeResources_failures (ex : List (String × RGNode)) (dups : List (String × Nat))
    (delFails : String → Bool) :
    (dedupeResources ex dups delFails).2.2 =
      (dups.filter (fun p => delFails p.1)).map Prod.fst := by
  by_cases h : dups.length > 0
  · rw [dedupeResources, if_pos h, dedupeResourcesAux_failures]
  · have : dups = [] := by
      cases dups with
      | nil => rfl
      | cons a b => exfalso; exact h (by simp)
    rw [dedupeResources, this]
    simp

theorem dedupeResources_sublist (ex : List (String × RGNode)) (dups : List (String × Nat))
    (delFails : String → Bool) :
    ((dedupeResources ex dups delFails).1).Sublist ex := by
  by_cases h : dups.length > 0
  · rw [dedupeResources, if_pos h]
    exact dedupeResourcesAux_sublist delFails dups ex
  · rw [dedupeResources, if_neg h]

/-! The property comparison and the delete-set extraction. -/

theorem propDiffers_iff (newResource : Resource) (existingResource : RGNode)
    (key : String) (value : GoVal) :
    propDiffers newResource existingResource key value = true ↔
      DiffersSpec newResource existingResource key value := by
  by_cases hv : isSeqVal value = true
  · by_cases he : isSeqVal (lookupVal existingResource.properties key) = true
    · simp [propDiffers, DiffersSpec, hv, he, goDeepEqual]
    · simp [propDiffers, DiffersSpec, hv, he]
      exact ⟨fun h hc => h hc.symm, fun h hc => h hc.symm⟩
  · simp [propDiffers, DiffersSpec, hv]
    exact ⟨fun h hc => h hc.symm, fun h hc => h hc.symm⟩

theorem needsUpdate_iff (r : Resource) (node : RGNode) :
    needsUpdate r node = true ↔
      (r.encodedProperties = none ∨
        ∃ enc, r.encodedProperties = some enc ∧
          ∃ p ∈ enc, DiffersSpec r node p.1 p.2) := by
  cases henc : r.encodedProperties with
  | none => simp [needsUpdate, henc]
  | some enc =>
    simp only [needsUpdate, henc, List.any_eq_true, propDiffers_iff]
    constructor
    · intro ⟨p, hp, hd⟩
      exact Or.inr ⟨enc, rfl, p, hp, hd⟩
    · intro h
      rcases h with h | ⟨enc', henc', p, hp, hd⟩
      · exact absurd h (by simp)
      · cases Option.some.inj henc'
        exact ⟨p, hp, hd⟩

theorem goStringAssert_of_uidStr {n : RGNode} {u : String} (h : RGNode.uidStr n = some u) :
    goStringAssert (lookupVal n.properties "_uid") = u := by
  cases ha : alookup n.properties "_uid" with
  | none =>
    rw [RGNode.uidStr, ha] at h
    exact absurd h (by simp)
  | some v =>
    rw [RGNode.uidStr, ha] at h
    cases v with
    | scalar s =>
      cases s with
      | sstr w =>
        simp at h
        simp [lookupVal, ha, goStringAssert, h]
      | snil => exact absurd h (by simp)
      | sint64 i => exact absurd h (by simp)
      | sint i => exact absurd h (by simp)
      | sother t => exact absurd h (by simp)
    | vseq xs => exact absurd h (by simp)

theorem uidInv_of_sublist {m m' : List (String × RGNode)}
    (hsub : m'.Sublist m) (h : uidInv m) : uidInv m' :=
  fun p hp => h p (hsub.subset hp)

theorem deleteUIDsOf_eq_keys {m : List (String × RGNode)} (h : uidInv m) :
    deleteUIDsOf m = m.map Prod.fst := by
  induction m with
  | nil => rfl
  | cons p rest ih =>
    have hp := h p (List.mem_cons_self p rest)
    have hrest : uidInv rest := fun q hq => h q (List.mem_cons_of_mem p hq)
    simp only [deleteUIDsOf, List.map_cons] at ih ⊢
    rw [goStringAssert_of_uidStr hp, ih hrest]

/-! Projections of a completed cycle trace. -/

theorem resyncCluster_ok {env : StoreEnv} {clusterName : String}
    {resources : List Resource} {edges : List Edge} {records : List (Option RGNode)}
    (hq : env.resourceQueryResult = Except.ok records) :
    resyncCluster env clusterName resources edges =
      some (resyncTraceOf env clusterName resources edges records) := by
  unfold resyncCluster
  rw [hq]

theorem trace_baseline (env : StoreEnv) (c : String) (rs : List Resource)
    (es : List Edge) (records : List (Option RGNode)) :
    (resyncTraceOf env c rs es records).baseline = baselineOf env records := rfl

theorem trace_toAdd (env : StoreEnv) (c : String) (rs : List Resource)
    (es : List Edge) (records : List (Option RGNode)) :
    (resyncTraceOf env c rs es records).resourcesToAdd =
      (diffResources rs (baselineOf env records)).1 := rfl

theorem trace_toUpdate (env : StoreEnv) (c : String) (rs : List Resource)
    (es : List Edge) (records : List (Option RGNode)) :
    (resyncTraceOf env c rs es records).resourcesToUpdate =
      (diffResources rs (baselineOf env records)).2.1 := rfl

theorem trace_deleteUIDs (env : StoreEnv) (c : String) (rs : List Resource)
    (es : List Edge) (records : List (Option RGNode)) :
    (resyncTraceOf env c rs es records).deleteUIDs =
      deleteUIDsOf (diffResources rs (baselineOf env records)).2.2 := rfl

theorem trace_dedupeFailures (env : StoreEnv) (c : String) (rs : List Resource)
    (es : List Edge) (records : List (Option RGNode)) :
    (resyncTraceOf env c rs es records).dedupeFailures =
      (dedupeResources (buildExisting records).1 (buildExisting records).2
        env.dupeDeleteFails).2.2 := rfl

theorem trace_edgesToAdd (env : StoreEnv) (c : String) (rs : List Resource)
    (es : List Edge) (records : List (Option RGNode)) :
    (resyncTraceOf env c rs es records).edgesToAdd =
      (diffEdges es (existingEdgesOf env)).2.1 := rfl

theorem trace_edgesToDelete (env : StoreEnv) (c : String) (rs : List Resource)
    (es : List Edge) (records : List (Option RGNode)) :
    (resyncTraceOf env c rs es records).edgesToDelete =
      (diffEdges es (existingEdgesOf env)).2.2.map Prod.snd := rfl

theorem trace_verifyKeys (env : StoreEnv) (c : String) (rs : List Resource)
    (es : List Edge) (records : List (Option RGNode)) :
    (resyncTraceOf env c rs es records).verifyKeys =
      (diffEdges es (existingEdgesOf env)).1 := rfl

theorem trace_insertResponse (env : StoreEnv) (c : String) (rs : List Resource)
    (es : List Edge) (records : List (Option RGNode)) :
    (resyncTraceOf env c rs es records).insertResponse =
      env.insertResp (diffResources rs (baselineOf env records)).1 := rfl

theorem trace_updateResponse (env : StoreEnv) (c : String) (rs : List Resource)
    (es : List Edge) (records : List (Option RGNode)) :
    (resyncTraceOf env c rs es records).updateResponse =
      env.updateResp (diffResources rs (baselineOf env records)).2.1 := rfl

theorem trace_deleteResponse (env : StoreEnv) (c : String) (rs : List Resource)
    (es : List Edge) (records : List (Option RGNode)) :
    (resyncTraceOf env c rs es records).deleteResponse =
      env.deleteResp (deleteUIDsOf (diffResources rs (baselineOf env records)).2.2) := rfl

theorem trace_insertEdgeResponse (env : StoreEnv) (c : String) (rs : List Resource)
    (es : List Edge) (records : List (Option RGNode)) :
    (resyncTraceOf env c rs es records).insertEdgeResponse =
      env.insertEdgeResp (diffEdges es (existingEdgesOf env)).2.1 := rfl

theorem trace_deleteEdgeResponse (env : StoreEnv) (c : String) (rs : List Resource)
    (es : List Edge) (records : List (Option RGNode)) :
    (resyncTraceOf env c rs es records).deleteEdgeResponse =
      env.deleteEdgeResp ((diffEdges es (existingEdgesOf env)).2.2.map Prod.snd) := rfl

theorem trace_stats (env : StoreEnv) (c : String) (rs : List Resource)
    (es : List Edge) (records : List (Option RGNode)) :
    (resyncTraceOf env c rs es records).stats =
      mkStats (resyncTraceOf env c rs es records).insertResponse
        (resyncTraceOf env c rs es records).updateResponse
        (resyncTraceOf env c rs es records).deleteResponse
        (resyncTraceOf env c rs es records).insertEdgeResponse
        (resyncTraceOf env c rs es records).deleteEdgeResponse := rfl

theorem trace_ops (env : StoreEnv) (c : String) (rs : List Resource)
    (es : List Edge) (records : List (Option RGNode)) :
    (resyncTraceOf env c rs es records).ops =
      [StoreOp.query (resourceQueryStr c)] ++
        (dedupeResources (buildExisting records).1 (buildExisting records).2
          env.dupeDeleteFails).2.1 ++
        [StoreOp.chunkedInsert (resyncTraceOf env c rs es records).resourcesToAdd c,
          StoreOp.chunkedUpdate (resyncTraceOf env c rs es records).resourcesToUpdate,
          StoreOp.chunkedDelete (resyncTraceOf env c rs es records).deleteUIDs,
          StoreOp.query (edgeQueryStr c),
          StoreOp.query (dupEdgeDeleteQueryStr c),
          StoreOp.chunkedInsertEdge (resyncTraceOf env c rs es records).edgesToAdd c,
          StoreOp.chunkedDeleteEdge (resyncTraceOf env c rs es records).edgesToDelete c] := rfl

theorem trace_err (env : StoreEnv) (c : String) (rs : List Resource)
    (es : List Edge) (records : List (Option RGNode)) :
    (resyncTraceOf env c rs es records).err =
      overrideErr
        (overrideErr
          (match env.dupEdgeDeleteResult with
            | Except.error e => some e
            | Except.ok _ =>
              match env.edgeQueryResult with
              | Except.error e => some e
              | Except.ok _ =>
                overrideErr
                  (overrideErr
                    (overrideErr none
                      ((resyncTraceOf env c rs es records).insertResponse.connectionError))
                    ((resyncTraceOf env c rs es records).updateResponse.connectionError))
                  ((resyncTraceOf env c rs es records).deleteResponse.connectionError))
          ((resyncTraceOf env c rs es records).insertEdgeResponse.connectionError))
        ((resyncTraceOf env c rs es records).deleteEdgeResponse.connectionError) := rfl

theorem respErrors_facts (response : ChunkedResponse) (verb : String) :
    (response.connectionError ≠ none → respErrors response verb = []) ∧
    (respErrors response verb ≠ [] → response.connectionError = none) := by
  cases h : response.connectionError with
  | some e =>
    refine ⟨fun _ => ?_, fun hne => ?_⟩
    · simp [respErrors, h]
    · exact absurd (by simp [respErrors, h]) hne
  | none => exact ⟨fun hc => absurd rfl hc, fun _ => rfl⟩

/-! The claims. -/

/-- C9: the value normalizer renders 64-bit and platform integers in
base-10 decimal (the produced characters are decimal digits denoting
exactly the input value, without a leading zero, with a minus sign for
negatives), so `int64(42)` and the string `"42"` normalize to equal
canonical strings; strings pass through unchanged; a sequence, nil, or
any unrecognized type yields the empty string — the function is total,
so comparison always completes without an error. -/
theorem C9_valueToString_normalizer :
    (∀ n : Nat,
      (valueToString (GoVal.scalar (GoScalar.sint64 (Int.ofNat n)))).data.all isDigitChar = true ∧
      digitsVal (valueToString (GoVal.scalar (GoScalar.sint64 (Int.ofNat n)))).data = n) ∧
    (∀ n : Nat,
      valueToString (GoVal.scalar (GoScalar.sint64 (Int.negSucc n))) =
        String.mk (Char.ofNat 45 ::
          (valueToString (GoVal.scalar (GoScalar.sint64 (Int.ofNat (n + 1))))).data)) ∧
    (∀ i : Int,
      valueToString (GoVal.scalar (GoScalar.sint i)) =
        valueToString (GoVal.scalar (GoScalar.sint64 i))) ∧
    valueToString (GoVal.scalar (GoScalar.sint64 42)) =
      valueToString (GoVal.scalar (GoScalar.sstr "42")) ∧
    (∀ s : String, valueToString (GoVal.scalar (GoScalar.sstr s)) = s) ∧
    (∀ xs : List GoScalar, valueToString (GoVal.vseq xs) = "") ∧
    (∀ tag : String, valueToString (GoVal.scalar (GoScalar.sother tag)) = "") ∧
    valueToString (GoVal.scalar GoScalar.snil) = "" ∧
    (∀ n : Nat,
      (valueToString (GoVal.scalar (GoScalar.sint64 (Int.ofNat (n + 1))))).data.head? ≠
        some (Char.ofNat 48)) := by
  have hval : ∀ n : Nat,
      valueToString (GoVal.scalar (GoScalar.sint64 (Int.ofNat n))) =
        String.mk (natDecChars n) := by
    intro n
    have hneg : ¬ ((Int.ofNat n) < 0) := Int.not_lt.mpr (Int.ofNat_nonneg n)
    simp only [valueToString, scalarToString, formatInt, if_neg hneg]
    rfl
  refine ⟨?_, ?_, ?_, ?_, ?_, ?_, ?_, ?_, ?_⟩
  · intro n
    rw [hval n]
    exact ⟨(natDecChars_spec n).1, (natDecChars_spec n).2.1⟩
  · intro n
    have hneg : (Int.negSucc n) < 0 := Int.negSucc_lt_zero n
    rw [hval (n + 1)]
    simp only [valueToString, scalarToString, formatInt, if_pos hneg]
    rfl
  · intro i
    rfl
  · decide
  · intro s
    rfl
  · intro xs
    rfl
  · intro tag
    rfl
  · rfl
  · intro n
    rw [hval (n + 1)]
    exact (natDecChars_spec (n + 1)).2.2.2 (by omega)

/-- C2: the claim says a failed initial resource query is recorded and
the cycle proceeds with an empty baseline without crashing; the code
instead iterates `result.Next()` over the nil result with no guard (the
guard exists only on the edge query, with a comment saying it avoids
exactly this panic), so the cycle panics and returns nothing — at this
concrete failing input the modelled call yields `none`. -/
theorem C2_resource_query_error_panics :
    resyncCluster
      { resourceQueryResult := Except.error "connection lost"
        dupeDeleteFails := fun _ => false
        edgeQueryResult := Except.ok []
        dupEdgeDeleteResult := Except.ok 0
        insertResp := fun _ => ChunkedResponse.mk 0 0 0 [] none
        updateResp := fun _ => ChunkedResponse.mk 0 0 0 [] none
        deleteResp := fun _ => ChunkedResponse.mk 0 0 0 [] none
        insertEdgeResp := fun _ => ChunkedResponse.mk 0 0 0 [] none
        deleteEdgeResp := fun _ => ChunkedResponse.mk 0 0 0 [] none }
      "cluster1" [Resource.mk "uid1" [] (some [])] [] = none := rfl

/-- C4: the claim says every query string into which `resyncCluster`
interpolates the cluster name goes through `SanitizeQuery`; at the
failing input `a'` (a name holding a quote) the existing-edges query and
the duplicate-edge deletion query differ from their sanitized builds,
because both are produced by plain `fmt.Sprintf` — only the
existing-resources query is built through the sanitizer. -/
theorem C4_edge_queries_bypass_sanitizer :
    edgeQueryStr (String.mk [Char.ofNat 97, quoteChar]) ≠
      edgeQueryStrSanitized (String.mk [Char.ofNat 97, quoteChar]) ∧
    dupEdgeDeleteQueryStr (String.mk [Char.ofNat 97, quoteChar]) ≠
      dupEdgeDeleteQueryStrSanitized (String.mk [Char.ofNat 97, quoteChar]) ∧
    resourceQueryStr (String.mk [Char.ofNat 97, quoteChar]) =
      "MATCH (n \x7bcluster: \x27" ++
        sanitizeArg (String.mk [Char.ofNat 97, quoteChar]) ++ "\x27\x7d) RETURN n" :=
  ⟨by decide, by decide, rfl⟩

/-- C10: for every mutation of the cycle, the per-item `ResourceErrors`
of a response are copied into the returned `SyncResponse` only when that
response's `ConnectionError` is nil — a non-nil connection error leaves
the corresponding error list empty, because the item errors sit in the
`else if` branch of the connection-error check. -/
theorem C10_item_errors_only_without_connection_error
    (env : StoreEnv) (clusterName : String) (resources : List Resource)
    (edges : List Edge) (records : List (Option RGNode))
    (hq : env.resourceQueryResult = Except.ok records) :
    ∃ t, resyncCluster env clusterName resources edges = some t ∧
      (t.insertResponse.connectionError ≠ none → t.stats.addErrors = []) ∧
      (t.stats.addErrors ≠ [] → t.insertResponse.connectionError = none) ∧
      (t.updateResponse.connectionError ≠ none → t.stats.updateErrors = []) ∧
      (t.stats.updateErrors ≠ [] → t.updateResponse.connectionError = none) ∧
      (t.deleteResponse.connectionError ≠ none → t.stats.deleteErrors = []) ∧
      (t.stats.deleteErrors ≠ [] → t.deleteResponse.connectionError = none) ∧
      (t.insertEdgeResponse.connectionError ≠ none → t.stats.addEdgeErrors = []) ∧
      (t.stats.addEdgeErrors ≠ [] → t.insertEdgeResponse.connectionError = none) ∧
      (t.deleteEdgeResponse.connectionError ≠ none → t.stats.deleteEdgeErrors = []) ∧
      (t.stats.deleteEdgeErrors ≠ [] → t.deleteEdgeResponse.connectionError = none) := by
  refine ⟨resyncTraceOf env clusterName resources edges records, resyncCluster_ok hq,
    ?_, ?_, ?_, ?_, ?_, ?_, ?_, ?_, ?_, ?_⟩ <;>
    rw [trace_stats]
  · exact (respErrors_facts _ "inserted").1
  · exact (respErrors_facts _ "inserted").2
  · exact (respErrors_facts _ "updated").1
  · exact (respErrors_facts _ "updated").2
  · exact (respErrors_facts _ "deleted").1
  · exact (respErrors_facts _ "deleted").2
  · exact (respErrors_facts _ "inserted by edge").1
  · exact (respErrors_facts _ "inserted by edge").2
  · exact (respErrors_facts _ "removed by edge").1
  · exact (respErrors_facts _ "removed by edge").2

/-- C10 witness: the suppression claim evaluated on an environment whose
resource insert reports a connection error together with one item error;
the assembled response's add-error list stays empty. -/
theorem C10_item_errors_only_without_connection_error_witness :
    connFailWithItemErrsEnv.resourceQueryResult = Except.ok [] ∧
    (resyncTraceOf connFailWithItemErrsEnv "c" [] [] []).insertResponse.resourceErrors =
      [ResourceError.mk "item1" "write failed"] ∧
    (resyncTraceOf connFailWithItemErrsEnv "c" [] [] []).stats.addErrors = [] ∧
    (∃ t, resyncCluster connFailWithItemErrsEnv "c" [] [] = some t ∧
      (t.insertResponse.connectionError ≠ none → t.stats.addErrors = []) ∧
      (t.stats.addErrors ≠ [] → t.insertResponse.connectionError = none) ∧
      (t.updateResponse.connectionError ≠ none → t.stats.updateErrors = []) ∧
      (t.stats.updateErrors ≠ [] → t.updateResponse.connectionError = none) ∧
      (t.deleteResponse.connectionError ≠ none → t.stats.deleteErrors = []) ∧
      (t.stats.deleteErrors ≠ [] → t.deleteResponse.connectionError = none) ∧
      (t.insertEdgeResponse.connectionError ≠ none → t.stats.addEdgeErrors = []) ∧
      (t.stats.addEdgeErrors ≠ [] → t.insertEdgeResponse.connectionError = none) ∧
      (t.deleteEdgeResponse.connectionError ≠ none → t.stats.deleteEdgeErrors = []) ∧
      (t.stats.deleteEdgeErrors ≠ [] → t.deleteEdgeResponse.connectionError = none)) :=
  ⟨rfl, rfl, by decide,
    C10_item_errors_only_without_connection_error connFailWithItemErrsEnv "c" [] [] [] rfl⟩

theorem overrideErr_isSome_left {a b : Option String} (h : a.isSome = true) :
    (overrideErr a b).isSome = true := by
  cases b with
  | none => exact h
  | some e => rfl

theorem overrideErr_isSome_right {a b : Option String} (h : b.isSome = true) :
    (overrideErr a b).isSome = true := by
  cases b with
  | none => simp at h
  | some e => rfl

/-- C3 counterexample: with a connection-level error on the resource
insert, the resource update and resource delete mutations are still
attempted — both appear in the cycle's operation trace — refuting that
the error "prevents the resource update and resource delete mutations
from being attempted". -/
theorem C3_counterexample :
    resyncCluster connFailInsertEnv "c" [Resource.mk "u0" [] (some [])] [] =
      some (resyncTraceOf connFailInsertEnv "c" [Resource.mk "u0" [] (some [])] [] []) ∧
    (resyncTraceOf connFailInsertEnv "c" [Resource.mk "u0" [] (some [])] [] []).insertResponse.connectionError =
      some "conn refused" ∧
    StoreOp.chunkedUpdate
        (resyncTraceOf connFailInsertEnv "c" [Resource.mk "u0" [] (some [])] [] []).resourcesToUpdate ∈
      (resyncTraceOf connFailInsertEnv "c" [Resource.mk "u0" [] (some [])] [] []).ops ∧
    StoreOp.chunkedDelete
        (resyncTraceOf connFailInsertEnv "c" [Resource.mk "u0" [] (some [])] [] []).deleteUIDs ∈
      (resyncTraceOf connFailInsertEnv "c" [Resource.mk "u0" [] (some [])] [] []).ops :=
  ⟨resyncCluster_ok rfl, rfl, by decide, by decide⟩

/-- C3 (amended): a connection-level error on a chunked mutation is
non-fatal to the cycle's control flow: it is recorded into the single
returned error value (a later error overwrites it), every mutation of
the cycle is still issued, and the success counts every mutation
reported are returned as the statistics. -/
theorem C3_connection_error_does_not_abort
    (env : StoreEnv) (clusterName : String) (resources : List Resource)
    (edges : List Edge) (records : List (Option RGNode))
    (hq : env.resourceQueryResult = Except.ok records) :
    ∃ t, resyncCluster env clusterName resources edges = some t ∧
      StoreOp.chunkedInsert t.resourcesToAdd clusterName ∈ t.ops ∧
      StoreOp.chunkedUpdate t.resourcesToUpdate ∈ t.ops ∧
      StoreOp.chunkedDelete t.deleteUIDs ∈ t.ops ∧
      StoreOp.chunkedInsertEdge t.edgesToAdd clusterName ∈ t.ops ∧
      StoreOp.chunkedDeleteEdge t.edgesToDelete clusterName ∈ t.ops ∧
      t.stats.totalAdded = t.insertResponse.successfulResources ∧
      t.stats.totalUpdated = t.updateResponse.successfulResources ∧
      t.stats.totalDeleted = t.deleteResponse.successfulResources ∧
      t.stats.totalEdgesAdded = t.insertEdgeResponse.successfulResources ∧
      t.stats.totalEdgesDeleted = t.deleteEdgeResponse.successfulResources ∧
      (t.insertResponse.connectionError.isSome = true → t.err.isSome = true) := by
  refine ⟨resyncTraceOf env clusterName resources edges records, resyncCluster_ok hq,
    ?_, ?_, ?_, ?_, ?_, rfl, rfl, rfl, rfl, rfl, ?_⟩
  · rw [trace_ops]
    exact List.mem_append.mpr (Or.inr (by simp))
  · rw [trace_ops]
    exact List.mem_append.mpr (Or.inr (by simp))
  · rw [trace_ops]
    exact List.mem_append.mpr (Or.inr (by simp))
  · rw [trace_ops]
    exact List.mem_append.mpr (Or.inr (by simp))
  · rw [trace_ops]
    exact List.mem_append.mpr (Or.inr (by simp))
  · intro h
    rw [trace_err]
    apply overrideErr_isSome_left
    apply overrideErr_isSome_left
    cases hdup : env.dupEdgeDeleteResult with
    | error e => rfl
    | ok k =>
      cases hedge : env.edgeQueryResult with
      | error e => rfl
      | ok edgeRecords =>
        apply overrideErr_isSome_left
        apply overrideErr_isSome_left
        exact overrideErr_isSome_right h

/-- C3 witness: the amended claim evaluated on the environment whose
resource insert fails with a connection error. -/
theorem C3_connection_error_does_not_abort_witness :
    connFailInsertEnv.resourceQueryResult = Except.ok [] ∧
    (∃ t, resyncCluster connFailInsertEnv "c" [Resource.mk "u0" [] (some [])] [] = some t ∧
      StoreOp.chunkedInsert t.resourcesToAdd "c" ∈ t.ops ∧
      StoreOp.chunkedUpdate t.resourcesToUpdate ∈ t.ops ∧
      StoreOp.chunkedDelete t.deleteUIDs ∈ t.ops ∧
      StoreOp.chunkedInsertEdge t.edgesToAdd "c" ∈ t.ops ∧
      StoreOp.chunkedDeleteEdge t.edgesToDelete "c" ∈ t.ops ∧
      t.stats.totalAdded = t.insertResponse.successfulResources ∧
      t.stats.totalUpdated = t.updateResponse.successfulResources ∧
      t.stats.totalDeleted = t.deleteResponse.successfulResources ∧
      t.stats.totalEdgesAdded = t.insertEdgeResponse.successfulResources ∧
      t.stats.totalEdgesDeleted = t.deleteEdgeResponse.successfulResources ∧
      (t.insertResponse.connectionError.isSome = true → t.err.isSome = true)) :=
  ⟨rfl, C3_connection_error_does_not_abort connFailInsertEnv "c"
    [Resource.mk "u0" [] (some [])] [] [] rfl⟩

/-- C1 counterexample: with `(A,"owns",B)` present in the existing
baseline and the incoming payload holding that identity twice, the
identity appears in `edgesToAdd` (the first occurrence consumed the
baseline entry, the second classified as add), refuting "an identity
present in the existing baseline never also appears in edgesToAdd";
the duplicate-payload warning condition (verification set smaller than
the payload) does hold. -/
theorem C1_counterexample :
    alookup [(getEdgeUID "A" "owns" "B", Edge.mk "A" "owns" "B")]
        (edgeKey (Edge.mk "A" "owns" "B")) ≠ none ∧
    (diffEdges [Edge.mk "A" "owns" "B", Edge.mk "A" "owns" "B"]
        [(getEdgeUID "A" "owns" "B", Edge.mk "A" "owns" "B")]).2.1 =
      [Edge.mk "A" "owns" "B"] ∧
    (diffEdges [Edge.mk "A" "owns" "B", Edge.mk "A" "owns" "B"]
        [(getEdgeUID "A" "owns" "B", Edge.mk "A" "owns" "B")]).1.length ≠
      ([Edge.mk "A" "owns" "B", Edge.mk "A" "owns" "B"] : List Edge).length :=
  ⟨by decide, by decide, by decide⟩

/-- C1 (amended): an incoming edge list holding a repeated identity key
does trigger the duplicate-payload warning (the verification set is
strictly smaller than the payload), but later occurrences do not
collapse into the first occurrence's decision: each occurrence is
classified against the baseline as already consumed by the earlier
occurrences, so for every key the add list holds the payload's
occurrence count minus one when the key was in the baseline (the first
occurrence consumes it) and the full occurrence count otherwise — in
particular a baseline identity repeated in the payload reappears in
`edgesToAdd`. -/
theorem C1_duplicate_payload_edges (edges : List Edge) (existing : List (String × Edge))
    (hdup : ¬ (edges.map edgeKey).Nodup) :
    (diffEdges edges existing).1.length ≠ edges.length ∧
    ∀ k, countEdgesByKey (diffEdges edges existing).2.1 k =
      countEdgesByKey edges k - (if (alookup existing k).isSome then 1 else 0) := by
  constructor
  · have hnd := diffEdges_verify_nodup edges existing
    have hmem := diffEdges_verify_mem edges existing
    have h1 : (diffEdges edges existing).1.toFinset = (edges.map edgeKey).toFinset := by
      ext x
      simp only [List.mem_toFinset]
      exact hmem x
    have h2 : (diffEdges edges existing).1.length = (diffEdges edges existing).1.dedup.length := by
      rw [List.dedup_eq_self.mpr hnd]
    have h3 : (diffEdges edges existing).1.dedup.length =
        (diffEdges edges existing).1.toFinset.card := (List.card_toFinset _).symm
    have h4 : (edges.map edgeKey).toFinset.card = (edges.map edgeKey).dedup.length :=
      List.card_toFinset _
    have h5 : (edges.map edgeKey).dedup.length < (edges.map edgeKey).length := by
      have hle := (List.dedup_sublist (edges.map edgeKey)).length_le
      rcases Nat.lt_or_ge (edges.map edgeKey).dedup.length (edges.map edgeKey).length with
        hlt | hge
      · exact hlt
      · exfalso
        have heq : (edges.map edgeKey).dedup.length = (edges.map edgeKey).length :=
          Nat.le_antisymm hle hge
        have hdd := (List.dedup_sublist (edges.map edgeKey)).eq_of_length heq
        exact hdup (hdd ▸ List.nodup_dedup (edges.map edgeKey))
    have hcard : (diffEdges edges existing).1.toFinset.card =
        (edges.map edgeKey).toFinset.card := by rw [h1]
    have hlen : (edges.map edgeKey).length = edges.length := List.length_map _ _
    omega
  · intro k
    exact diffEdges_count edges existing k

/-- C1 witness: the amended claim evaluated on the duplicate payload
`[(A,owns,B), (A,owns,B)]` against the baseline holding that identity. -/
theorem C1_duplicate_payload_edges_witness :
    (¬ (([Edge.mk "A" "owns" "B", Edge.mk "A" "owns" "B"].map edgeKey).Nodup)) ∧
    ((diffEdges [Edge.mk "A" "owns" "B", Edge.mk "A" "owns" "B"]
        [(getEdgeUID "A" "owns" "B", Edge.mk "A" "owns" "B")]).1.length ≠
      [Edge.mk "A" "owns" "B", Edge.mk "A" "owns" "B"].length ∧
    ∀ k, countEdgesByKey (diffEdges [Edge.mk "A" "owns" "B", Edge.mk "A" "owns" "B"]
          [(getEdgeUID "A" "owns" "B", Edge.mk "A" "owns" "B")]).2.1 k =
        countEdgesByKey [Edge.mk "A" "owns" "B", Edge.mk "A" "owns" "B"] k -
          (if (alookup [(getEdgeUID "A" "owns" "B", Edge.mk "A" "owns" "B")] k).isSome
            then 1 else 0)) :=
  ⟨by decide, C1_duplicate_payload_edges _ _ (by decide)⟩

/-- C7: with a duplicate-free incoming edge list and a deduplicated
existing baseline, `edgesToAdd` holds exactly the incoming edges whose
identity key is absent from the baseline and `edgesToDelete` holds
exactly the baseline edges whose key does not occur among the incoming
edges. -/
theorem C7_edge_diff_sets (edges : List Edge) (existing : List (String × Edge))
    (hnd : (edges.map edgeKey).Nodup) (hex : keysNodup existing) :
    (∀ e : Edge, e ∈ (diffEdges edges existing).2.1 ↔
      e ∈ edges ∧ alookup existing (edgeKey e) = none) ∧
    (∀ d : Edge, d ∈ ((diffEdges edges existing).2.2.map Prod.snd) ↔
      ∃ k, (k, d) ∈ existing ∧ k ∉ edges.map edgeKey) := by
  have hremnd : keysNodup (diffEdges edges existing).2.2 :=
    keysNodup_of_sublist (diffEdges_rem_sublist edges existing) hex
  constructor
  · intro e
    exact diffEdges_mem_adds edges hnd e existing
  · intro d
    constructor
    · intro hd
      obtain ⟨p, hmem, hdd⟩ := List.mem_map.mp hd
      obtain ⟨k, d'⟩ := p
      have hd' : d' = d := hdd
      subst hd'
      have hrem : alookup (diffEdges edges existing).2.2 k = some d' :=
        (alookup_eq_some_iff_mem _ k d' hremnd).mpr hmem
      rw [diffEdges_rem_alookup] at hrem
      by_cases hk : k ∈ edges.map edgeKey
      · rw [if_pos hk] at hrem
        exact absurd hrem (by simp)
      · rw [if_neg hk] at hrem
        exact ⟨k, (alookup_eq_some_iff_mem existing k d' hex).mp hrem, hk⟩
    · intro ⟨k, hmem, hk⟩
      have hex' : alookup existing k = some d :=
        (alookup_eq_some_iff_mem existing k d hex).mpr hmem
      have hrem : alookup (diffEdges edges existing).2.2 k = some d := by
        rw [diffEdges_rem_alookup, if_neg hk]
        exact hex'
      have := (alookup_eq_some_iff_mem _ k d hremnd).mp hrem
      exact List.mem_map.mpr ⟨(k, d), this, rfl⟩

/-- C7 witness: the two concrete examples of the claim — existing
`\x7b(A,owns,B)\x7d` with incoming `\x7b(A,owns,B),(A,owns,C)\x7d` gives
toAdd `\x7b(A,owns,C)\x7d` and toDelete `\x7b\x7d`; existing
`\x7b(A,owns,B),(A,owns,C)\x7d` with incoming `\x7b(A,owns,B)\x7d` gives
toAdd `\x7b\x7d` and toDelete `\x7b(A,owns,C)\x7d` — plus the general
theorem applied to the first example. -/
theorem C7_edge_diff_sets_witness :
    (([Edge.mk "A" "owns" "B", Edge.mk "A" "owns" "C"].map edgeKey).Nodup ∧
      keysNodup [(getEdgeUID "A" "owns" "B", Edge.mk "A" "owns" "B")]) ∧
    (diffEdges [Edge.mk "A" "owns" "B", Edge.mk "A" "owns" "C"]
      [(getEdgeUID "A" "owns" "B", Edge.mk "A" "owns" "B")]).2.1 =
        [Edge.mk "A" "owns" "C"] ∧
    ((diffEdges [Edge.mk "A" "owns" "B", Edge.mk "A" "owns" "C"]
      [(getEdgeUID "A" "owns" "B", Edge.mk "A" "owns" "B")]).2.2.map Prod.snd) = [] ∧
    (diffEdges [Edge.mk "A" "owns" "B"]
      [(getEdgeUID "A" "owns" "B", Edge.mk "A" "owns" "B"),
        (getEdgeUID "A" "owns" "C", Edge.mk "A" "owns" "C")]).2.1 = [] ∧
    ((diffEdges [Edge.mk "A" "owns" "B"]
      [(getEdgeUID "A" "owns" "B", Edge.mk "A" "owns" "B"),
        (getEdgeUID "A" "owns" "C", Edge.mk "A" "owns" "C")]).2.2.map Prod.snd) =
        [Edge.mk "A" "owns" "C"] ∧
    ((∀ e : Edge, e ∈ (diffEdges [Edge.mk "A" "owns" "B", Edge.mk "A" "owns" "C"]
        [(getEdgeUID "A" "owns" "B", Edge.mk "A" "owns" "B")]).2.1 ↔
      e ∈ [Edge.mk "A" "owns" "B", Edge.mk "A" "owns" "C"] ∧
        alookup [(getEdgeUID "A" "owns" "B", Edge.mk "A" "owns" "B")] (edgeKey e) = none) ∧
    (∀ d : Edge, d ∈ ((diffEdges [Edge.mk "A" "owns" "B", Edge.mk "A" "owns" "C"]
        [(getEdgeUID "A" "owns" "B", Edge.mk "A" "owns" "B")]).2.2.map Prod.snd) ↔
      ∃ k, (k, d) ∈ [(getEdgeUID "A" "owns" "B", Edge.mk "A" "owns" "B")] ∧
        k ∉ [Edge.mk "A" "owns" "B", Edge.mk "A" "owns" "C"].map edgeKey)) :=
  ⟨⟨by decide, by decide⟩, by decide, by decide, by decide, by decide,
    C7_edge_diff_sets _ _ (by decide) (by decide)⟩

/-- C6: an incoming resource whose UID exists in the baseline is
classified by its encoded properties: an encoding failure conservatively
classifies it update; any single property that differs (per the spec's
comparison — deep equality when both sides are sequences, normalized
strings otherwise) classifies it update; and when every encoded property
matches it is a no-op, in neither the add nor the update set. -/
theorem C6_property_diff (resources : List Resource) (existing : List (String × RGNode))
    (r : Resource) (node : RGNode)
    (hnd : (resources.map Resource.uid).Nodup)
    (hr : r ∈ resources) (hm : alookup existing r.uid = some node) :
    (r.encodedProperties = none → r ∈ (diffResources resources existing).2.1) ∧
    (∀ enc, r.encodedProperties = some enc →
      ((∃ p ∈ enc, DiffersSpec r node p.1 p.2) →
        r ∈ (diffResources resources existing).2.1) ∧
      ((∀ p ∈ enc, ¬ DiffersSpec r node p.1 p.2) →
        r ∉ (diffResources resources existing).2.1 ∧
          r ∉ (diffResources resources existing).1)) := by
  constructor
  · intro henc
    exact (diffResources_mem_upds resources hnd r existing).mpr
      ⟨hr, node, hm, (needsUpdate_iff r node).mpr (Or.inl henc)⟩
  · intro enc henc
    constructor
    · intro ⟨p, hp, hd⟩
      exact (diffResources_mem_upds resources hnd r existing).mpr
        ⟨hr, node, hm, (needsUpdate_iff r node).mpr (Or.inr ⟨enc, henc, p, hp, hd⟩)⟩
    · intro hall
      constructor
      · intro hmem
        obtain ⟨_, node', hlk, hup⟩ := (diffResources_mem_upds resources hnd r existing).mp hmem
        rw [hm] at hlk
        cases Option.some.inj hlk
        rcases (needsUpdate_iff r node).mp hup with hcase | ⟨enc', henc', p, hp, hd⟩
        · rw [henc] at hcase
          exact Option.noConfusion hcase
        · rw [henc] at henc'
          cases Option.some.inj henc'
          exact hall p hp hd
      · intro hmem
        obtain ⟨_, hlk⟩ := (diffResources_mem_adds resources hnd r existing).mp hmem
        rw [hm] at hlk
        exact Option.noConfusion hlk

/-- C6 witness: a resource whose only change is the scalar `status`
property (Ready to NotReady) is classified update, and a byte-identical
resource is a no-op (in neither set); the theorem is applied to the
changed resource. -/
theorem C6_property_diff_witness :
    (([Resource.mk "u1" [("status", GoVal.scalar (GoScalar.sstr "NotReady"))]
        (some [("status", GoVal.scalar (GoScalar.sstr "NotReady"))])].map Resource.uid).Nodup ∧
      Resource.mk "u1" [("status", GoVal.scalar (GoScalar.sstr "NotReady"))]
          (some [("status", GoVal.scalar (GoScalar.sstr "NotReady"))]) ∈
        [Resource.mk "u1" [("status", GoVal.scalar (GoScalar.sstr "NotReady"))]
          (some [("status", GoVal.scalar (GoScalar.sstr "NotReady"))])] ∧
      alookup [("u1", RGNode.mk [("_uid", GoVal.scalar (GoScalar.sstr "u1")),
          ("status", GoVal.scalar (GoScalar.sstr "Ready"))])]
        (Resource.mk "u1" [("status", GoVal.scalar (GoScalar.sstr "NotReady"))]
          (some [("status", GoVal.scalar (GoScalar.sstr "NotReady"))])).uid =
        some (RGNode.mk [("_uid", GoVal.scalar (GoScalar.sstr "u1")),
          ("status", GoVal.scalar (GoScalar.sstr "Ready"))])) ∧
    (diffResources
      [Resource.mk "u1" [("status", GoVal.scalar (GoScalar.sstr "NotReady"))]
        (some [("status", GoVal.scalar (GoScalar.sstr "NotReady"))])]
      [("u1", RGNode.mk [("_uid", GoVal.scalar (GoScalar.sstr "u1")),
        ("status", GoVal.scalar (GoScalar.sstr "Ready"))])]).2.1 =
      [Resource.mk "u1" [("status", GoVal.scalar (GoScalar.sstr "NotReady"))]
        (some [("status", GoVal.scalar (GoScalar.sstr "NotReady"))])] ∧
    (diffResources
      [Resource.mk "u1" [("status", GoVal.scalar (GoScalar.sstr "Ready"))]
        (some [("status", GoVal.scalar (GoScalar.sstr "Ready"))])]
      [("u1", RGNode.mk [("_uid", GoVal.scalar (GoScalar.sstr "u1")),
        ("status", GoVal.scalar (GoScalar.sstr "Ready"))])]).2.1 = [] ∧
    (diffResources
      [Resource.mk "u1" [("status", GoVal.scalar (GoScalar.sstr "Ready"))]
        (some [("status", GoVal.scalar (GoScalar.sstr "Ready"))])]
      [("u1", RGNode.mk [("_uid", GoVal.scalar (GoScalar.sstr "u1")),
        ("status", GoVal.scalar (GoScalar.sstr "Ready"))])]).1 = [] ∧
    ((Resource.mk "u1" [("status", GoVal.scalar (GoScalar.sstr "NotReady"))]
        (some [("status", GoVal.scalar (GoScalar.sstr "NotReady"))])).encodedProperties =
          none →
      Resource.mk "u1" [("status", GoVal.scalar (GoScalar.sstr "NotReady"))]
          (some [("status", GoVal.scalar (GoScalar.sstr "NotReady"))]) ∈
        (diffResources
          [Resource.mk "u1" [("status", GoVal.scalar (GoScalar.sstr "NotReady"))]
            (some [("status", GoVal.scalar (GoScalar.sstr "NotReady"))])]
          [("u1", RGNode.mk [("_uid", GoVal.scalar (GoScalar.sstr "u1")),
            ("status", GoVal.scalar (GoScalar.sstr "Ready"))])]).2.1) ∧
    (∀ enc, (Resource.mk "u1" [("status", GoVal.scalar (GoScalar.sstr "NotReady"))]
        (some [("status", GoVal.scalar (GoScalar.sstr "NotReady"))])).encodedProperties =
          some enc →
      ((∃ p ∈ enc, DiffersSpec
          (Resource.mk "u1" [("status", GoVal.scalar (GoScalar.sstr "NotReady"))]
            (some [("status", GoVal.scalar (GoScalar.sstr "NotReady"))]))
          (RGNode.mk [("_uid", GoVal.scalar (GoScalar.sstr "u1")),
            ("status", GoVal.scalar (GoScalar.sstr "Ready"))]) p.1 p.2) →
        Resource.mk "u1" [("status", GoVal.scalar (GoScalar.sstr "NotReady"))]
            (some [("status", GoVal.scalar (GoScalar.sstr "NotReady"))]) ∈
          (diffResources
            [Resource.mk "u1" [("status", GoVal.scalar (GoScalar.sstr "NotReady"))]
              (some [("status", GoVal.scalar (GoScalar.sstr "NotReady"))])]
            [("u1", RGNode.mk [("_uid", GoVal.scalar (GoScalar.sstr "u1")),
              ("status", GoVal.scalar (GoScalar.sstr "Ready"))])]).2.1) ∧
      ((∀ p ∈ enc, ¬ DiffersSpec
          (Resource.mk "u1" [("status", GoVal.scalar (GoScalar.sstr "NotReady"))]
            (some [("status", GoVal.scalar (GoScalar.sstr "NotReady"))]))
          (RGNode.mk [("_uid", GoVal.scalar (GoScalar.sstr "u1")),
            ("status", GoVal.scalar (GoScalar.sstr "Ready"))]) p.1 p.2) →
        Resource.mk "u1" [("status", GoVal.scalar (GoScalar.sstr "NotReady"))]
            (some [("status", GoVal.scalar (GoScalar.sstr "NotReady"))]) ∉
          (diffResources
            [Resource.mk "u1" [("status", GoVal.scalar (GoScalar.sstr "NotReady"))]
              (some [("status", GoVal.scalar (GoScalar.sstr "NotReady"))])]
            [("u1", RGNode.mk [("_uid", GoVal.scalar (GoScalar.sstr "u1")),
              ("status", GoVal.scalar (GoScalar.sstr "Ready"))])]).2.1 ∧
          Resource.mk "u1" [("status", GoVal.scalar (GoScalar.sstr "NotReady"))]
              (some [("status", GoVal.scalar (GoScalar.sstr "NotReady"))]) ∉
            (diffResources
              [Resource.mk "u1" [("status", GoVal.scalar (GoScalar.sstr "NotReady"))]
                (some [("status", GoVal.scalar (GoScalar.sstr "NotReady"))])]
              [("u1", RGNode.mk [("_uid", GoVal.scalar (GoScalar.sstr "u1")),
                ("status", GoVal.scalar (GoScalar.sstr "Ready"))])]).1)) := by
  refine ⟨⟨by decide, by decide, by decide⟩, by decide, by decide, by decide, ?_, ?_⟩
  · exact (C6_property_diff _ _ _
      (RGNode.mk [("_uid", GoVal.scalar (GoScalar.sstr "u1")),
        ("status", GoVal.scalar (GoScalar.sstr "Ready"))])
      (by decide) (by decide) (by decide)).1
  · exact (C6_property_diff _ _ _
      (RGNode.mk [("_uid", GoVal.scalar (GoScalar.sstr "u1")),
        ("status", GoVal.scalar (GoScalar.sstr "Ready"))])
      (by decide) (by decide) (by decide)).2

/-- C5 counterexample: when the incoming list repeats a UID that exists
in the baseline, the UID is classified twice — the first occurrence
lands in the update set and the second (the baseline entry now consumed)
in the add set — refuting "no resource UID is double-counted across the
add, update, and delete sets". -/
theorem C5_counterexample :
    ((diffResources
      [Resource.mk "u" [("status", GoVal.scalar (GoScalar.sstr "NotReady"))]
        (some [("status", GoVal.scalar (GoScalar.sstr "NotReady"))]),
       Resource.mk "u" [("status", GoVal.scalar (GoScalar.sstr "NotReady"))]
        (some [("status", GoVal.scalar (GoScalar.sstr "NotReady"))])]
      [("u", RGNode.mk [("_uid", GoVal.scalar (GoScalar.sstr "u")),
        ("status", GoVal.scalar (GoScalar.sstr "Ready"))])]).2.1.map Resource.uid = ["u"]) ∧
    ((diffResources
      [Resource.mk "u" [("status", GoVal.scalar (GoScalar.sstr "NotReady"))]
        (some [("status", GoVal.scalar (GoScalar.sstr "NotReady"))]),
       Resource.mk "u" [("status", GoVal.scalar (GoScalar.sstr "NotReady"))]
        (some [("status", GoVal.scalar (GoScalar.sstr "NotReady"))])]
      [("u", RGNode.mk [("_uid", GoVal.scalar (GoScalar.sstr "u")),
        ("status", GoVal.scalar (GoScalar.sstr "Ready"))])]).1.map Resource.uid = ["u"]) :=
  ⟨by decide, by decide⟩

/-- C5 (amended): provided the incoming resources carry pairwise
distinct UIDs, each incoming resource is classified into exactly one of
add, update, or no-op according to the deduplicated baseline, each
baseline UID absent from the incoming snapshot is classified delete
exactly once, and no UID is double-counted across the add, update and
delete sets. -/
theorem C5_partition (env : StoreEnv) (clusterName : String)
    (resources : List Resource) (edges : List Edge) (records : List (Option RGNode))
    (hq : env.resourceQueryResult = Except.ok records)
    (hnd : (resources.map Resource.uid).Nodup) :
    ∃ t, resyncCluster env clusterName resources edges = some t ∧
      (∀ r ∈ resources,
        (r ∈ t.resourcesToAdd ↔ alookup t.baseline r.uid = none) ∧
        (r ∈ t.resourcesToUpdate ↔
          ∃ node, alookup t.baseline r.uid = some node ∧ needsUpdate r node = true)) ∧
      (∀ k, k ∈ t.deleteUIDs ↔
        k ∈ t.baseline.map Prod.fst ∧ k ∉ resources.map Resource.uid) ∧
      (t.resourcesToAdd.map Resource.uid ++ t.resourcesToUpdate.map Resource.uid ++
        t.deleteUIDs).Nodup := by
  have hBnd : keysNodup (baselineOf env records) :=
    keysNodup_of_sublist (dedupeResources_sublist _ _ _) (buildExisting_keysNodup records)
  have hBinv : uidInv (baselineOf env records) :=
    uidInv_of_sublist (dedupeResources_sublist _ _ _) (buildExisting_uidInv records)
  have hremsub := diffResources_rem_sublist resources (baselineOf env records)
  have hreminv : uidInv (diffResources resources (baselineOf env records)).2.2 :=
    uidInv_of_sublist hremsub hBinv
  have hdel : deleteUIDsOf (diffResources resources (baselineOf env records)).2.2 =
      ((diffResources resources (baselineOf env records)).2.2).map Prod.fst :=
    deleteUIDsOf_eq_keys hreminv
  have hDmem : ∀ a, a ∈ ((diffResources resources (baselineOf env records)).2.2).map Prod.fst ↔
      a ∈ (baselineOf env records).map Prod.fst ∧ a ∉ resources.map Resource.uid := by
    intro a
    rw [mem_keys_iff_alookup, diffResources_rem_alookup]
    by_cases ha : a ∈ resources.map Resource.uid
    · rw [if_pos ha]
      simp [ha]
    · rw [if_neg ha]
      rw [← mem_keys_iff_alookup]
      simp [ha]
  refine ⟨resyncTraceOf env clusterName resources edges records, resyncCluster_ok hq,
    ?_, ?_, ?_⟩
  · intro r hr
    rw [trace_toAdd, trace_toUpdate, trace_baseline]
    constructor
    · rw [diffResources_mem_adds resources hnd r (baselineOf env records)]
      exact ⟨fun h => h.2, fun h => ⟨hr, h⟩⟩
    · rw [diffResources_mem_upds resources hnd r (baselineOf env records)]
      exact ⟨fun h => h.2, fun h => ⟨hr, h⟩⟩
  · intro k
    rw [trace_deleteUIDs, trace_baseline, hdel]
    exact hDmem k
  · rw [trace_toAdd, trace_toUpdate, trace_deleteUIDs, hdel]
    have hAnd : ((diffResources resources (baselineOf env records)).1.map Resource.uid).Nodup :=
      List.Nodup.sublist
        (List.Sublist.map Resource.uid (diffResources_adds_sublist resources _)) hnd
    have hUnd : ((diffResources resources (baselineOf env records)).2.1.map Resource.uid).Nodup :=
      List.Nodup.sublist
        (List.Sublist.map Resource.uid (diffResources_upds_sublist resources _)) hnd
    have hDnd : (((diffResources resources (baselineOf env records)).2.2).map Prod.fst).Nodup :=
      List.Nodup.sublist (List.Sublist.map Prod.fst hremsub) hBnd
    have hAmem : ∀ a, a ∈ (diffResources resources (baselineOf env records)).1.map Resource.uid →
        a ∈ resources.map Resource.uid ∧
          alookup (baselineOf env records) a = none := by
      intro a ha
      obtain ⟨r1, hr1, huid⟩ := List.mem_map.mp ha
      obtain ⟨hrs, hlk⟩ := (diffResources_mem_adds resources hnd r1 _).mp hr1
      exact ⟨List.mem_map.mpr ⟨r1, hrs, huid⟩, huid ▸ hlk⟩
    have hUmem : ∀ a, a ∈ (diffResources resources (baselineOf env records)).2.1.map Resource.uid →
        a ∈ resources.map Resource.uid ∧
          (alookup (baselineOf env records) a).isSome = true := by
      intro a ha
      obtain ⟨r1, hr1, huid⟩ := List.mem_map.mp ha
      obtain ⟨hrs, node, hlk, _⟩ := (diffResources_mem_upds resources hnd r1 _).mp hr1
      refine ⟨List.mem_map.mpr ⟨r1, hrs, huid⟩, ?_⟩
      rw [← huid, hlk]
      rfl
    have hADdisj : ((diffResources resources (baselineOf env records)).1.map Resource.uid).Disjoint
        ((diffResources resources (baselineOf env records)).2.1.map Resource.uid) := by
      intro a ha hu
      obtain ⟨_, hnone⟩ := hAmem a ha
      obtain ⟨_, hsome⟩ := hUmem a hu
      rw [hnone] at hsome
      simp at hsome
    have hDnotin : ∀ a, a ∈ ((diffResources resources (baselineOf env records)).2.2).map Prod.fst →
        a ∉ resources.map Resource.uid := fun a ha => ((hDmem a).mp ha).2
    rw [List.nodup_append, List.nodup_append]
    refine ⟨⟨hAnd, hUnd, hADdisj⟩, hDnd, ?_⟩
    intro a ha hd
    rcases List.mem_append.mp ha with ha | ha
    · exact hDnotin a hd (hAmem a ha).1
    · exact hDnotin a hd (hUmem a ha).1

/-- C5 witness: the amended partition claim evaluated on a cycle whose
baseline holds UID `u` and whose incoming snapshot holds the single
fresh UID `v`. -/
theorem C5_partition_witness :
    oneNodeEnv.resourceQueryResult = Except.ok oneNodeRecords ∧
    (([Resource.mk "v" [] (some [])].map Resource.uid).Nodup) ∧
    (∃ t, resyncCluster oneNodeEnv "c" [Resource.mk "v" [] (some [])] [] = some t ∧
      (∀ r ∈ [Resource.mk "v" [] (some [])],
        (r ∈ t.resourcesToAdd ↔ alookup t.baseline r.uid = none) ∧
        (r ∈ t.resourcesToUpdate ↔
          ∃ node, alookup t.baseline r.uid = some node ∧ needsUpdate r node = true)) ∧
      (∀ k, k ∈ t.deleteUIDs ↔
        k ∈ t.baseline.map Prod.fst ∧
          k ∉ [Resource.mk "v" [] (some [])].map Resource.uid) ∧
      (t.resourcesToAdd.map Resource.uid ++ t.resourcesToUpdate.map Resource.uid ++
        t.deleteUIDs).Nodup) :=
  ⟨rfl, by decide,
    C5_partition oneNodeEnv "c" [Resource.mk "v" [] (some [])] []
      oneNodeRecords rfl (by decide)⟩

/-- C8: a UID occurring more than once in the cluster query result is
remediated: the cycle issues the store deletion query that matches all
records carrying that UID, the UID is absent from the post-resolution
baseline, an incoming resource with that UID goes through the add path,
and a failure of the deletion query is only recorded for the log — the
cycle still completes and the baseline stripping still happens. -/
theorem C8_duplicate_uid_remediation (env : StoreEnv) (clusterName : String)
    (resources : List Resource) (edges : List Edge) (records : List (Option RGNode))
    (uid : String) (r : Resource)
    (hq : env.resourceQueryResult = Except.ok records)
    (hocc : 2 ≤ occCount records uid)
    (hnd : (resources.map Resource.uid).Nodup)
    (hr : r ∈ resources) (hru : r.uid = uid) :
    ∃ t, resyncCluster env clusterName resources edges = some t ∧
      alookup t.baseline uid = none ∧
      StoreOp.query (dupUidDeleteQueryStr uid) ∈ t.ops ∧
      r ∈ t.resourcesToAdd ∧
      (env.dupeDeleteFails uid = true → uid ∈ t.dedupeFailures) := by
  have hd : (alookup (buildExisting records).2 uid).isSome = true :=
    buildExisting_dups records uid hocc
  have hdk : uid ∈ (buildExisting records).2.map Prod.fst :=
    (mem_keys_iff_alookup _ uid).mpr hd
  have hbase : alookup (baselineOf env records) uid = none := by
    show alookup (dedupeResources (buildExisting records).1 (buildExisting records).2
      env.dupeDeleteFails).1 uid = none
    rw [dedupeResources_baseline, if_pos hdk]
  obtain ⟨p, hp, hpu⟩ := List.mem_map.mp hdk
  refine ⟨resyncTraceOf env clusterName resources edges records, resyncCluster_ok hq,
    ?_, ?_, ?_, ?_⟩
  · rw [trace_baseline]
    exact hbase
  · rw [trace_ops, dedupeResources_ops]
    refine List.mem_append.mpr (Or.inl (List.mem_append.mpr (Or.inr ?_)))
    exact List.mem_map.mpr ⟨p, hp, by rw [hpu]⟩
  · rw [trace_toAdd]
    refine (diffResources_mem_adds resources hnd r _).mpr ⟨hr, ?_⟩
    rw [hru]
    exact hbase
  · intro hf
    rw [trace_dedupeFailures, dedupeResources_failures]
    refine List.mem_map.mpr ⟨p, List.mem_filter.mpr ⟨hp, ?_⟩, hpu⟩
    rw [hpu]
    exact hf

/-- C8 witness: the remediation claim evaluated on a query result in
which UID `X` appears 3 times, with a deletion that fails (only logged),
and an incoming resource with UID `X` re-added through the add path. -/
theorem C8_duplicate_uid_remediation_witness :
    tripleDupeEnv.resourceQueryResult = Except.ok tripleDupeRecords ∧
    2 ≤ occCount tripleDupeRecords "X" ∧
    (([Resource.mk "X" [] (some [])].map Resource.uid).Nodup) ∧
    Resource.mk "X" [] (some []) ∈ [Resource.mk "X" [] (some [])] ∧
    (Resource.mk "X" [] (some [])).uid = "X" ∧
    (∃ t, resyncCluster tripleDupeEnv "c" [Resource.mk "X" [] (some [])] [] = some t ∧
      alookup t.baseline "X" = none ∧
      StoreOp.query (dupUidDeleteQueryStr "X") ∈ t.ops ∧
      Resource.mk "X" [] (some []) ∈ t.resourcesToAdd ∧
      (tripleDupeEnv.dupeDeleteFails "X" = true → "X" ∈ t.dedupeFailures)) :=
  ⟨rfl, by decide, by decide, by decide, rfl,
    C8_duplicate_uid_remediation tripleDupeEnv "c" [Resource.mk "X" [] (some [])] []
      tripleDupeRecords "X"
      (Resource.mk "X" [] (some [])) rfl (by decide) (by decide) (by decide) rfl⟩

end SearchAggregator
